import Mathlib

/-!
Verification development for the cmdproxy argument-transit protocol.

The definitions below are a shallow embedding of the Python sources:
`invoke_params.py` (the `Param` discriminated union and its dict
serialisation), `protocol.py` (`RunRequest` / `RunResponse`),
`middles.py` (the client- and server-end invoke middles and the
serialisation middles over a GridFS-backed blob store) and `client.py`
(queue selection).  The GridFS blob store is modelled as a list of
(id, filename) entries with a fresh-id counter; blob contents play no
role in any of the properties below and are omitted.
-/

namespace Cmdproxy

/-- JSON documents, the target of `AutoSerde.serialize(fmt='json')`.
Objects keep key order, as Python dicts and `json` do. -/
inductive JVal where
  | null
  | jbool (b : Bool)
  | jint (n : Int)
  | jstr (s : String)
  | jarr (xs : List JVal)
  | jobj (kvs : List (String × JVal))
deriving Repr

/-- `socket.gethostname()` of the client host, a fixed opaque string in
this model (`LOCAL_HOSTNAME` in `invoke_params.py`). -/
def LOCAL_HOSTNAME : String := "client-host"

/-- The `Param` class hierarchy of `invoke_params.py` as a discriminated
union.  Local-file constructors carry only the path: `__post_init__`
asserts their hostname equals `LOCAL_HOSTNAME`.  Stream parameters are
not `Param` subclasses in the source (plain `StreamParam` dataclasses)
and are modelled separately as argument-tree leaves. -/
inductive Param where
  | str (value : String)
  | env (name : String)
  | remoteEnv (name : String)
  | cmdName (name : String)
  | cmdPath (path : String)
  | format (tmpl : String) (args : List (String × Param))
  | inLocalFile (filepath : String)
  | outLocalFile (filepath : String)
  | inCloudFile (filepath : String) (hostname : String)
  | outCloudFile (filepath : String) (hostname : String)
deriving Repr

/-- `CLOUD_URL_PATTERN.format(...)`: the canonical blob name
`@hostname:path` of a file parameter (`FileParamBase.cloud_url`). -/
def cloudUrl (hostname filepath : String) : String :=
  "@" ++ hostname ++ ":" ++ filepath

/-- `FileParamBase.cloud_url` on the file variants (`none` on non-file
parameters, which have no canonical blob name). -/
def Param.cloudUrl? : Param → Option String
  | .inLocalFile p => some (cloudUrl LOCAL_HOSTNAME p)
  | .outLocalFile p => some (cloudUrl LOCAL_HOSTNAME p)
  | .inCloudFile p h => some (cloudUrl h p)
  | .outCloudFile p h => some (cloudUrl h p)
  | _ => none

/-- `InFileParam.as_cloud` / `OutFileParam.as_cloud` (identity on the
cloud variants, identity on non-file parameters for totality). -/
def Param.asCloud : Param → Param
  | .inLocalFile p => .inCloudFile p LOCAL_HOSTNAME
  | .outLocalFile p => .outCloudFile p LOCAL_HOSTNAME
  | p => p

mutual

/-- The serialisable variant subset of §3: every variant except the
local-file (and stream) ones, recursively through `Format` children. -/
def Param.serialisable : Param → Bool
  | .str _ | .env _ | .remoteEnv _ | .cmdName _ | .cmdPath _ => true
  | .inCloudFile _ _ | .outCloudFile _ _ => true
  | .format _ args => Param.serialisableArgs args
  | .inLocalFile _ | .outLocalFile _ => false

def Param.serialisableArgs : List (String × Param) → Bool
  | [] => true
  | (_, p) :: rest => p.serialisable && Param.serialisableArgs rest

end

/-- `RunRequest` of `protocol.py` (field order as in the dataclass). -/
structure RunRequest where
  command : Param
  args : List Param
  cwd : Option String := none
  env : Option (List (String × Param)) := none
  to_downloads : Option (List Param) := none
  to_uploads : Option (List Param) := none
  stdout : Option Param := none
  stderr : Option Param := none
deriving Repr

/-- `RunResponse` of `protocol.py`: note the second field is named
`exc` in the source. -/
structure RunResponse where
  return_code : Int
  exc : Option String
deriving Repr

/-! ### JSON encoding (`Param._to_dict`, `AutoSerde.serialize`)

`Param._to_dict` produces the single-key object
`{ <registered class name> : <dataclass fields> }`; dataclass fields are
emitted in declaration order. -/

mutual

def encodeParam : Param → JVal
  | .str v => .jobj [("StrParam", .jobj [("value", .jstr v)])]
  | .env n => .jobj [("EnvParam", .jobj [("name", .jstr n)])]
  | .remoteEnv n => .jobj [("RemoteEnvParam", .jobj [("name", .jstr n)])]
  | .cmdName n => .jobj [("CmdNameParam", .jobj [("name", .jstr n)])]
  | .cmdPath p => .jobj [("CmdPathParam", .jobj [("path", .jstr p)])]
  | .format t args =>
      .jobj [("FormatParam",
        .jobj [("tmpl", .jstr t), ("args", .jobj (encodeParamArgs args))])]
  | .inLocalFile p =>
      .jobj [("InLocalFileParam",
        .jobj [("filepath", .jstr p), ("hostname", .jstr LOCAL_HOSTNAME)])]
  | .outLocalFile p =>
      .jobj [("OutLocalFileParam",
        .jobj [("filepath", .jstr p), ("hostname", .jstr LOCAL_HOSTNAME)])]
  | .inCloudFile p h =>
      .jobj [("InCloudFileParam",
        .jobj [("filepath", .jstr p), ("hostname", .jstr h)])]
  | .outCloudFile p h =>
      .jobj [("OutCloudFileParam",
        .jobj [("filepath", .jstr p), ("hostname", .jstr h)])]

def encodeParamArgs : List (String × Param) → List (String × JVal)
  | [] => []
  | (k, p) :: rest => (k, encodeParam p) :: encodeParamArgs rest

end

/-- Field access on a decoded JSON object: a Python dict built by
`json.loads` keeps the last value for a repeated key. -/
def jLookup (kvs : List (String × JVal)) (k : String) : Option JVal :=
  (kvs.reverse.find? (fun kv => kv.1 == k)).map (·.2)

theorem sizeOf_lt_of_jLookup {kvs : List (String × JVal)} {k : String}
    {v : JVal} (h : jLookup kvs k = some v) : sizeOf v < sizeOf kvs := by
  unfold jLookup at h
  cases hf : (kvs.reverse.find? (fun kv => kv.1 == k)) with
  | none => simp [hf] at h
  | some kv =>
    simp only [hf, Option.map_some'] at h
    have hmem : kv ∈ kvs.reverse := List.mem_of_find?_eq_some hf
    rw [List.mem_reverse] at hmem
    have hs : sizeOf kv < sizeOf kvs := List.sizeOf_lt_of_mem hmem
    obtain ⟨k', v'⟩ := kv
    simp only [Option.some.injEq] at h
    subst h
    simp only [Prod.mk.sizeOf_spec] at hs
    omega

theorem sizeOf_lt_of_getLast? {kvs : List (String × JVal)}
    {tag : String} {body : JVal} (h : kvs.getLast? = some (tag, body)) :
    sizeOf body < sizeOf kvs := by
  have hmem' : (tag, body) ∈ kvs.getLast? := h ▸ rfl
  obtain ⟨hne, heq⟩ := List.mem_getLast?_eq_getLast hmem'
  have hmem : (tag, body) ∈ kvs := heq ▸ List.getLast_mem hne
  have hs : sizeOf (tag, body) < sizeOf kvs := List.sizeOf_lt_of_mem hmem
  simp only [Prod.mk.sizeOf_spec] at hs
  omega

/-! ### JSON decoding (`Param._from_dict`, `AutoSerde.deserialize`)

`Param._from_dict` pops the last item of the object (`dict.popitem`),
looks the tag up in the `AutoDict` registry (unknown tags fail), and
rebuilds the dataclass from the tagged body; `__post_init__` of the
local-file variants asserts `hostname == LOCAL_HOSTNAME`. -/

/-- Rebuild a one-string-field dataclass (`dataclass_from_dict` for
`StrParam`, `EnvParam`, `RemoteEnvParam`, `CmdNameParam`,
`CmdPathParam`). -/
def decodeOneField (field : String) (mk : String → Param)
    (fields : List (String × JVal)) : Option Param :=
  match jLookup fields field with
  | some (.jstr s) => some (mk s)
  | _ => none

/-- Rebuild a file-parameter dataclass from `filepath`/`hostname`; a
missing `hostname` key falls back to the dataclass default
`LOCAL_HOSTNAME`. -/
def decodeFileFields (mk : String → String → Option Param)
    (fields : List (String × JVal)) : Option Param :=
  match jLookup fields "filepath", jLookup fields "hostname" with
  | some (.jstr p), some (.jstr h) => mk p h
  | some (.jstr p), none => mk p LOCAL_HOSTNAME
  | _, _ => none

/-- `InLocalFileParam.__post_init__` asserts the hostname equals the
local hostname; decoding a local file parameter with a foreign
hostname therefore fails. -/
def mkInLocal (p h : String) : Option Param :=
  if h = LOCAL_HOSTNAME then some (.inLocalFile p) else none

def mkOutLocal (p h : String) : Option Param :=
  if h = LOCAL_HOSTNAME then some (.outLocalFile p) else none

mutual

def decodeParam (jv : JVal) : Option Param :=
  match jv with
  | .jobj kvs =>
      match h : kvs.getLast? with
      | some (tag, body) =>
          have : sizeOf body < sizeOf kvs := sizeOf_lt_of_getLast? h
          decodeTagged tag body
      | none => none
  | _ => none
termination_by sizeOf jv

def decodeTagged (tag : String) (body : JVal) : Option Param :=
  match body with
  | .jobj fields =>
      if tag = "StrParam" then decodeOneField "value" .str fields
      else if tag = "EnvParam" then decodeOneField "name" .env fields
      else if tag = "RemoteEnvParam" then
        decodeOneField "name" .remoteEnv fields
      else if tag = "CmdNameParam" then decodeOneField "name" .cmdName fields
      else if tag = "CmdPathParam" then decodeOneField "path" .cmdPath fields
      else if tag = "FormatParam" then decodeFormatFields fields
      else if tag = "InLocalFileParam" then decodeFileFields mkInLocal fields
      else if tag = "OutLocalFileParam" then decodeFileFields mkOutLocal fields
      else if tag = "InCloudFileParam" then
        decodeFileFields (fun p h => some (.inCloudFile p h)) fields
      else if tag = "OutCloudFileParam" then
        decodeFileFields (fun p h => some (.outCloudFile p h)) fields
      else none
  | _ => none
termination_by sizeOf body

def decodeFormatFields (fields : List (String × JVal)) : Option Param :=
  match jLookup fields "tmpl", hargs : jLookup fields "args" with
  | some (.jstr t), some (.jobj inner) =>
      have : sizeOf inner < sizeOf fields := by
        have h' := sizeOf_lt_of_jLookup hargs
        simp only [JVal.jobj.sizeOf_spec] at h'
        omega
      match decodeParamArgs inner with
      | some args => some (.format t args)
      | none => none
  | _, _ => none
termination_by sizeOf fields

def decodeParamArgs (kvs : List (String × JVal)) :
    Option (List (String × Param)) :=
  match kvs with
  | [] => some []
  | (k, v) :: rest =>
      match decodeParam v, decodeParamArgs rest with
      | some p, some ps => some ((k, p) :: ps)
      | _, _ => none
termination_by sizeOf kvs

end

/-- Decode a JSON array of parameters (the `args` tuple). -/
def decodeParamList : List JVal → Option (List Param)
  | [] => some []
  | v :: rest =>
      match decodeParam v, decodeParamList rest with
      | some p, some ps => some (p :: ps)
      | _, _ => none

/-- Encode an optional string field (`None` → JSON null). -/
def encodeOptStr : Option String → JVal
  | none => .null
  | some s => .jstr s

/-- Encode the optional `env` mapping field. -/
def encodeOptEnv : Option (List (String × Param)) → JVal
  | none => .null
  | some kvs => .jobj (encodeParamArgs kvs)

/-- Encode an optional parameter-list field. -/
def encodeOptParamList : Option (List Param) → JVal
  | none => .null
  | some ps => .jarr (ps.map encodeParam)

/-- Encode an optional parameter field. -/
def encodeOptParam : Option Param → JVal
  | none => .null
  | some p => encodeParam p

/-- Decode an optional string field; a missing key falls back to the
dataclass default `None`. -/
def decodeOptStr : Option JVal → Option (Option String)
  | none => some none
  | some .null => some none
  | some (.jstr s) => some (some s)
  | some _ => none

/-- Decode an optional parameter field (`stdout`, `stderr`). -/
def decodeOptParam : Option JVal → Option (Option Param)
  | none => some none
  | some .null => some none
  | some jv => (decodeParam jv).map some

/-- Decode an optional parameter-list field. -/
def decodeOptParamList : Option JVal → Option (Option (List Param))
  | none => some none
  | some .null => some none
  | some (.jarr xs) => (decodeParamList xs).map some
  | some _ => none

/-- Decode the optional `env` mapping field. -/
def decodeOptEnv : Option JVal → Option (Option (List (String × Param)))
  | none => some none
  | some .null => some none
  | some (.jobj xs) => (decodeParamArgs xs).map some
  | some _ => none

/-- `AutoSerde.serialize` of a `RunRequest` (dataclass → JSON object,
fields in declaration order, `Options(with_cls=False)` so no class
tag at the envelope level). -/
def encodeRunRequest (r : RunRequest) : JVal :=
  .jobj [("command", encodeParam r.command),
         ("args", .jarr (r.args.map encodeParam)),
         ("cwd", encodeOptStr r.cwd),
         ("env", encodeOptEnv r.env),
         ("to_downloads", encodeOptParamList r.to_downloads),
         ("to_uploads", encodeOptParamList r.to_uploads),
         ("stdout", encodeOptParam r.stdout),
         ("stderr", encodeOptParam r.stderr)]

/-- `AutoSerde.deserialize(cls=RunRequest)`. -/
def decodeRunRequest : JVal → Option RunRequest
  | .jobj kvs => do
      let cj ← jLookup kvs "command"
      let command ← decodeParam cj
      let argsj ← jLookup kvs "args"
      let args ← match argsj with
        | .jarr xs => decodeParamList xs
        | _ => none
      let cwd ← decodeOptStr (jLookup kvs "cwd")
      let env ← decodeOptEnv (jLookup kvs "env")
      let to_downloads ← decodeOptParamList (jLookup kvs "to_downloads")
      let to_uploads ← decodeOptParamList (jLookup kvs "to_uploads")
      let stdout ← decodeOptParam (jLookup kvs "stdout")
      let stderr ← decodeOptParam (jLookup kvs "stderr")
      some ⟨command, args, cwd, env, to_downloads, to_uploads, stdout, stderr⟩
  | _ => none

/-- `AutoSerde.serialize` of a `RunResponse`: dataclass fields in
declaration order, so the diagnostic field is serialised under the key
`exc` (its name in `protocol.py`). -/
def encodeRunResponse (r : RunResponse) : JVal :=
  .jobj [("return_code", .jint r.return_code),
         ("exc", encodeOptStr r.exc)]

/-- All parameters of an envelope lie in the serialisable subset. -/
def RunRequest.serialisable (r : RunRequest) : Bool :=
  r.command.serialisable && r.args.all Param.serialisable &&
  (match r.env with
    | none => true
    | some kvs => Param.serialisableArgs kvs) &&
  (match r.to_downloads with
    | none => true
    | some ps => ps.all Param.serialisable) &&
  (match r.to_uploads with
    | none => true
    | some ps => ps.all Param.serialisable) &&
  (match r.stdout with
    | none => true
    | some p => p.serialisable) &&
  (match r.stderr with
    | none => true
    | some p => p.serialisable)

/-! ### Round-trip of the parameter encoding -/

theorem decodeParam_single (tag : String) (body : JVal) :
    decodeParam (.jobj [(tag, body)]) = decodeTagged tag body := by
  rw [decodeParam]
  split
  · rename_i tag' body' h
    simp only [List.getLast?_singleton, Option.some.injEq, Prod.mk.injEq] at h
    obtain ⟨rfl, rfl⟩ := h
    rfl
  · rename_i h
    simp at h

theorem decodeTagged_str (v : String) :
    decodeTagged "StrParam" (.jobj [("value", .jstr v)]) = some (.str v) := by
  rw [decodeTagged]
  simp [decodeOneField, jLookup]

theorem decodeTagged_env (n : String) :
    decodeTagged "EnvParam" (.jobj [("name", .jstr n)]) = some (.env n) := by
  rw [decodeTagged]
  simp [decodeOneField, jLookup]

theorem decodeTagged_remoteEnv (n : String) :
    decodeTagged "RemoteEnvParam" (.jobj [("name", .jstr n)]) =
      some (.remoteEnv n) := by
  rw [decodeTagged]
  simp [decodeOneField, jLookup]

theorem decodeTagged_cmdName (n : String) :
    decodeTagged "CmdNameParam" (.jobj [("name", .jstr n)]) =
      some (.cmdName n) := by
  rw [decodeTagged]
  simp [decodeOneField, jLookup]

theorem decodeTagged_cmdPath (p : String) :
    decodeTagged "CmdPathParam" (.jobj [("path", .jstr p)]) =
      some (.cmdPath p) := by
  rw [decodeTagged]
  simp [decodeOneField, jLookup]

theorem decodeTagged_inCloud (p h : String) :
    decodeTagged "InCloudFileParam"
        (.jobj [("filepath", .jstr p), ("hostname", .jstr h)]) =
      some (.inCloudFile p h) := by
  rw [decodeTagged]
  simp [decodeFileFields, jLookup]

theorem decodeTagged_outCloud (p h : String) :
    decodeTagged "OutCloudFileParam"
        (.jobj [("filepath", .jstr p), ("hostname", .jstr h)]) =
      some (.outCloudFile p h) := by
  rw [decodeTagged]
  simp [decodeFileFields, jLookup]

theorem decodeFormatFields_eval (t : String) (inner : List (String × JVal)) :
    decodeFormatFields [("tmpl", .jstr t), ("args", .jobj inner)] =
      match decodeParamArgs inner with
      | some args => some (.format t args)
      | none => none := by
  rw [decodeFormatFields]
  split
  · rename_i t' inner' h1 h2
    simp only [jLookup, List.reverse_cons, List.reverse_nil, List.nil_append,
      List.cons_append, List.find?, String.reduceBEq, Option.map_some',
      Option.some.injEq, JVal.jstr.injEq, JVal.jobj.injEq] at h1 h2
    simp_all
  · rename_i hne
    exfalso
    apply hne t inner
    · simp [jLookup, List.find?]
    · simp [jLookup, List.find?]

theorem decodeTagged_format (t : String) (inner : List (String × JVal)) :
    decodeTagged "FormatParam"
        (.jobj [("tmpl", .jstr t), ("args", .jobj inner)]) =
      match decodeParamArgs inner with
      | some args => some (.format t args)
      | none => none := by
  rw [decodeTagged]
  simp only [String.reduceEq, reduceIte]
  exact decodeFormatFields_eval t inner

mutual

theorem decodeParam_encodeParam (p : Param) (h : p.serialisable = true) :
    decodeParam (encodeParam p) = some p := by
  cases p with
  | str v => rw [encodeParam, decodeParam_single, decodeTagged_str]
  | env n => rw [encodeParam, decodeParam_single, decodeTagged_env]
  | remoteEnv n => rw [encodeParam, decodeParam_single, decodeTagged_remoteEnv]
  | cmdName n => rw [encodeParam, decodeParam_single, decodeTagged_cmdName]
  | cmdPath pth => rw [encodeParam, decodeParam_single, decodeTagged_cmdPath]
  | format t args =>
      have h' : Param.serialisableArgs args = true := by
        simpa [Param.serialisable] using h
      have ih := decodeParamArgs_encodeParamArgs args h'
      rw [encodeParam, decodeParam_single, decodeTagged_format, ih]
  | inLocalFile pth => simp [Param.serialisable] at h
  | outLocalFile pth => simp [Param.serialisable] at h
  | inCloudFile pth hst =>
      rw [encodeParam, decodeParam_single, decodeTagged_inCloud]
  | outCloudFile pth hst =>
      rw [encodeParam, decodeParam_single, decodeTagged_outCloud]
termination_by sizeOf p

theorem decodeParamArgs_encodeParamArgs (args : List (String × Param))
    (h : Param.serialisableArgs args = true) :
    decodeParamArgs (encodeParamArgs args) = some args := by
  match args with
  | [] => simp [encodeParamArgs, decodeParamArgs]
  | (k, p) :: rest =>
      have hh : p.serialisable = true ∧ Param.serialisableArgs rest = true := by
        simpa [Param.serialisableArgs, Bool.and_eq_true] using h
      have ih1 := decodeParam_encodeParam p hh.1
      have ih2 := decodeParamArgs_encodeParamArgs rest hh.2
      rw [encodeParamArgs, decodeParamArgs]
      simp [ih1, ih2]
termination_by sizeOf args

end

theorem decodeParamList_map (ps : List Param)
    (h : ps.all Param.serialisable = true) :
    decodeParamList (ps.map encodeParam) = some ps := by
  induction ps with
  | nil => simp [decodeParamList]
  | cons p rest ih =>
      simp only [List.all_cons, Bool.and_eq_true] at h
      simp [List.map_cons, decodeParamList, decodeParam_encodeParam p h.1,
        ih h.2]

/-! ### The blob store

GridFS as used by the middles: a multiset of entries addressed by an
object id and carrying a logical filename.  `fs.put` always creates a
new entry (names are not unique); `fs.find_one` by filename returns
the single current entry located for that name; `fs.delete` removes by
object id.  Contents are irrelevant to every claim and are omitted. -/

structure Store where
  nextId : Nat
  entries : List (Nat × String)
deriving Repr, DecidableEq

/-- `fs.put(body, filename=url)`: create a new entry under a fresh id,
returning the id. -/
def Store.put (st : Store) (url : String) : Nat × Store :=
  (st.nextId, ⟨st.nextId + 1, st.entries ++ [(st.nextId, url)]⟩)

/-- `fs.find_one(dict(filename=url))`: the entry located for that
name, if any. -/
def Store.findOne (st : Store) (url : String) : Option Nat :=
  (st.entries.find? (fun e => e.2 == url)).map (·.1)

/-- `fs.exists(dict(filename=url))`. -/
def Store.existsName (st : Store) (url : String) : Bool :=
  st.entries.any (fun e => e.2 == url)

/-- `fs.delete(fid)`: remove the entry with that object id. -/
def Store.deleteId (st : Store) (fid : Nat) : Store :=
  ⟨st.nextId, st.entries.filter (fun e => e.1 != fid)⟩

/-- `FileParamBase.remove_from_cloud`: find one entry by canonical
name; delete it by id if present, silently succeed otherwise.  Returns
the deleted id as the source does. -/
def Store.removeFromCloud (st : Store) (url : String) :
    Option Nat × Store :=
  match st.findOne url with
  | none => (none, st)
  | some fid => (some fid, st.deleteId fid)

/-- Number of entries bearing a canonical name. -/
def Store.countName (st : Store) (url : String) : Nat :=
  (st.entries.filter (fun e => e.2 == url)).length

/-- Well-formedness maintained by the store operations: object ids are
unique and below the fresh-id counter. -/
def Store.WF (st : Store) : Prop :=
  (st.entries.map Prod.fst).Nodup ∧ ∀ e ∈ st.entries, e.1 < st.nextId

/-! ### The serialisation middles (`middles.py`) -/

/-- Client-side failure modes (Python exception kinds). -/
inductive ClientErr where
  | keyError (msg : String)
  | assertionError (msg : String)
  | typeError (msg : String)
  | fileNotFound (msg : String)
  | serverEnd (exc : String)
  | dispatchFailure (msg : String)
deriving Repr, DecidableEq

/-- `f'{repr(e)}:\n{traceback.format_exc()}'` of
`DeserializeAndUnpackMiddle.wrap`; the traceback text is modelled by a
fixed suffix. -/
def diagnostic (e : String) : String :=
  e ++ ":\n" ++ "Traceback (most recent call last)"

/-- The body of `DeserializeAndUnpackMiddle.wrap.wrapped`:
`ret_code, exc = -1, None`, then the try-block deserialises the
request and runs the inner function, and any exception lands in the
except-branch leaving `ret_code = -1` and setting `exc`.  `decoded`
stands for the outcome of `AutoSerde.deserialize` on the input string
(an arbitrary string: `.error` covers malformed JSON and unknown
variant tags), `func` for the wrapped pipeline below this middle. -/
def deserializeAndUnpack (decoded : Except String RunRequest)
    (func : RunRequest → Except String Int) : RunResponse :=
  match decoded with
  | .error e => ⟨-1, some (diagnostic e)⟩
  | .ok rq =>
      match func rq with
      | .ok rc => ⟨rc, none⟩
      | .error e => ⟨-1, some (diagnostic e)⟩

/-- The full server boundary: the response is re-serialised and handed
back to the broker; this function is total, so the worker never
propagates an exception. -/
def serverHandle (decoded : Except String RunRequest)
    (func : RunRequest → Except String Int) : JVal :=
  encodeRunResponse (deserializeAndUnpack decoded func)

/-- A successful decode-and-execute run (the negation is "the worker
failed before or during execution"). -/
def serverRunOk (decoded : Except String RunRequest)
    (func : RunRequest → Except String Int) : Prop :=
  ∃ rq rc, decoded = .ok rq ∧ func rq = .ok rc

instance (decoded : Except String RunRequest)
    (func : RunRequest → Except String Int) :
    Decidable (serverRunOk decoded func) := by
  unfold serverRunOk
  cases decoded with
  | error e => exact .isFalse (by simp)
  | ok rq =>
      cases hf : func rq with
      | error e =>
          exact .isFalse (by simp [hf])
      | ok rc =>
          exact .isTrue ⟨rq, rc, rfl, by simp [hf]⟩

/-- Key list of a serialised JSON object. -/
def jKeys : JVal → List String
  | .jobj kvs => kvs.map Prod.fst
  | _ => []

/-- The tail of `PackAndSerializeMiddle.wrap.wrapped` after the broker
returned: `return_code = run_response.return_code;
if run_response.exc is not None: raise ServerEndException(...);
return return_code`. -/
def packResponsePostprocess (resp : RunResponse) : Except ClientErr Int :=
  let return_code := resp.return_code
  match resp.exc with
  | some e => .error (.serverEnd e)
  | none => .ok return_code

/-! ### The caller's argument tree (`InvokeMiddle.wrap_args_rec`) -/

/-- Python scalar leaves accepted by `AnyGuard`: `str`, `int`,
`float`, `bool`.  A float is modelled by its `str()` rendering. -/
inductive PyScalar where
  | s (v : String)
  | i (v : Int)
  | f (render : String)
  | b (v : Bool)
deriving Repr, DecidableEq

/-- Python `str()` of a scalar. -/
def PyScalar.pyStr : PyScalar → String
  | .s v => v
  | .i v => toString v
  | .f render => render
  | .b true => "True"
  | .b false => "False"

/-- A caller-side argument tree: `None`, scalar leaves, parameter
leaves, stream parameters (plain `StreamParam` dataclasses carrying an
io object, which plays no role for the store) and the three container
kinds the walk recurses into. -/
inductive ArgTree where
  | pyNone
  | scalar (v : PyScalar)
  | param (p : Param)
  | inStream (filename : String)
  | outStream (filename : String)
  | dict (kvs : List (String × ArgTree))
  | tlist (xs : List ArgTree)
  | tup (xs : List ArgTree)
  | tset (xs : List ArgTree)
deriving Repr

/-- `parse.parse(CLOUD_URL_PATTERN, url)`: split `@hostname:path`
(both parts non-empty) or fail. -/
def parseCloudUrl (s : String) : Option (String × String) :=
  if s.startsWith "@" then
    let rest := s.drop 1
    let host := rest.takeWhile (· ≠ ':')
    let path := rest.drop (host.length + 1)
    if host.length + 1 < rest.length && !host.isEmpty then
      some (host, path)
    else none
  else none

/-- `Param.ipath`: a cloud-url string becomes an `InCloudFileParam`,
anything else an `InLocalFileParam`. -/
def Param.ipath (r : String) : Param :=
  match parseCloudUrl r with
  | some (h, p) => .inCloudFile p h
  | none => .inLocalFile r

/-- `Param.opath`. -/
def Param.opath (r : String) : Param :=
  match parseCloudUrl r with
  | some (h, p) => .outCloudFile p h
  | none => .outLocalFile r

/-- Canonical name of a file parameter, defaulting for non-file
parameters (never hit on the parameters the pipeline stages). -/
def Param.cloudUrlD (p : Param) : String := (p.cloudUrl?).getD ""

/-- The canonical blob name a stream of this filename is staged under:
`Param.ipath(filename).as_cloud().cloud_url`. -/
def streamUrl (fn : String) : String :=
  match parseCloudUrl fn with
  | some (h, p) => cloudUrl h p
  | none => cloudUrl LOCAL_HOSTNAME fn

/-- A deferred exit action pushed on the `ExitStack` by a client-side
guard.  `deleteId` is `InFileGuard`'s `fs.delete(file_id)`;
`removeByName` is `InStreamGuard`'s `remove_from_cloud`;
`outStreamExit` is `OutStreamGuard`'s download (which raises when the
blob is absent) followed by `remove_from_cloud`; `outLocalExit` is
`OutFileGuard`'s suppressed download-and-delete. -/
inductive ExitAction where
  | deleteId (fid : Nat)
  | removeByName (url : String)
  | outStreamExit (url : String)
  | outLocalExit (url : String)
deriving Repr, DecidableEq

/-- `os.getenv` on the client, over an explicit environment. -/
def lookupEnv (cenv : List (String × String)) (n : String) : Option String :=
  (cenv.find? (fun kv => kv.1 == n)).map (·.2)

mutual

/-- Python hashability of a walked value: `None` and the scalar types
are hashable, a tuple is hashable when all its elements are, and
everything else the walk can produce is not — in particular every
`Param` instance, because the `Param` dataclasses are declared with
the defaults `eq=True, frozen=False`, which set `__hash__ = None`
(the file-parameter subclasses inherit that `None` from the
`FileParamBase` dataclass), and dict/list/set values. -/
def pyHashable : ArgTree → Bool
  | .pyNone => true
  | .scalar _ => true
  | .tup xs => pyHashableList xs
  | _ => false

def pyHashableList : List ArgTree → Bool
  | [] => true
  | x :: rest => pyHashable x && pyHashableList rest

end

/-! The client-side enter phase (`ProxyClientEndInvokeMiddle`): walking
an argument value through its guard's code up to `yield`, threading
the blob store and accumulating deferred exit actions in enter order.
Each function returns `(wrapped, store, exits, callerAfter)`:
`wrapped` is the value yielded into the envelope, `callerAfter` the
state of the caller's own object after the run (identical to the
original except that `FormatGuard` reassigns `arg.args` in place).

A set container is rebuilt as `cls(wrap(v) for v in arg)`: the set
constructor consumes the generator one element at a time and hashes
each wrapped element as it inserts it, so the walk of a set raises
`TypeError` at the first wrapped element that is unhashable — which
every wrapped parameter is — and leaves the remaining elements
unwalked (`enterTreeSetElems`). -/

mutual

def enterParam (cenv : List (String × String)) (p : Param) (st : Store) :
    Except ClientErr (Param × Store × List ExitAction × Param) :=
  match p with
  | .str v => .ok (.str v, st, [], .str v)
  | .env n =>
      match lookupEnv cenv n with
      | none =>
          .error (.keyError ("No environment variable named as " ++ n ++ "."))
      | some v => .ok (.str v, st, [], .env n)
  | .remoteEnv n => .ok (.env n, st, [], .remoteEnv n)
  | .cmdName n => .ok (.cmdName n, st, [], .cmdName n)
  | .cmdPath pth => .ok (.cmdPath pth, st, [], .cmdPath pth)
  | .format t args =>
      match enterParamArgs cenv args st with
      | .error e => .error e
      | .ok (wargs, st', ex, _) =>
          .ok (.format t wargs, st', ex, .format t wargs)
  | .inLocalFile pth =>
      let url := cloudUrl LOCAL_HOSTNAME pth
      let (fid, st') := st.put url
      .ok (.inCloudFile pth LOCAL_HOSTNAME, st', [.deleteId fid],
           .inLocalFile pth)
  | .inCloudFile pth h => .ok (.inCloudFile pth h, st, [], .inCloudFile pth h)
  | .outLocalFile pth =>
      .ok (.outCloudFile pth LOCAL_HOSTNAME, st,
           [.outLocalExit (cloudUrl LOCAL_HOSTNAME pth)], .outLocalFile pth)
  | .outCloudFile pth h =>
      .ok (.outCloudFile pth h, st, [], .outCloudFile pth h)

def enterParamArgs (cenv : List (String × String))
    (args : List (String × Param)) (st : Store) :
    Except ClientErr
      (List (String × Param) × Store × List ExitAction ×
        List (String × Param)) :=
  match args with
  | [] => .ok ([], st, [], [])
  | (k, p) :: rest =>
      match enterParam cenv p st with
      | .error e => .error e
      | .ok (w, st1, ex1, a) =>
          match enterParamArgs cenv rest st1 with
          | .error e => .error e
          | .ok (wrest, st2, ex2, arest) =>
              .ok ((k, w) :: wrest, st2, ex1 ++ ex2, (k, a) :: arest)

end

mutual

def enterTree (cenv : List (String × String)) (t : ArgTree) (st : Store) :
    Except ClientErr (ArgTree × Store × List ExitAction × ArgTree) :=
  match t with
  | .pyNone => .ok (.pyNone, st, [], .pyNone)
  | .scalar v => .ok (.param (.str v.pyStr), st, [], .scalar v)
  | .param p =>
      match enterParam cenv p st with
      | .error e => .error e
      | .ok (w, st', ex, a) => .ok (.param w, st', ex, .param a)
  | .inStream fn =>
      let prm := (Param.ipath fn).asCloud
      let url := prm.cloudUrlD
      let (_, st') := st.put url
      .ok (.param prm, st', [.removeByName url], .inStream fn)
  | .outStream fn =>
      let prm := (Param.opath fn).asCloud
      let url := prm.cloudUrlD
      .ok (.param prm, st, [.outStreamExit url], .outStream fn)
  | .dict kvs =>
      match enterTreeKVs cenv kvs st with
      | .error e => .error e
      | .ok (w, st', ex, a) => .ok (.dict w, st', ex, .dict a)
  | .tlist xs =>
      match enterTreeList cenv xs st with
      | .error e => .error e
      | .ok (w, st', ex, a) => .ok (.tlist w, st', ex, .tlist a)
  | .tup xs =>
      match enterTreeList cenv xs st with
      | .error e => .error e
      | .ok (w, st', ex, a) => .ok (.tup w, st', ex, .tup a)
  | .tset xs =>
      match enterTreeSetElems cenv xs st with
      | .error e => .error e
      | .ok (w, st', ex, a) => .ok (.tset w, st', ex, .tset a)

def enterTreeKVs (cenv : List (String × String))
    (kvs : List (String × ArgTree)) (st : Store) :
    Except ClientErr
      (List (String × ArgTree) × Store × List ExitAction ×
        List (String × ArgTree)) :=
  match kvs with
  | [] => .ok ([], st, [], [])
  | (k, v) :: rest =>
      match enterTree cenv v st with
      | .error e => .error e
      | .ok (w, st1, ex1, a) =>
          match enterTreeKVs cenv rest st1 with
          | .error e => .error e
          | .ok (wrest, st2, ex2, arest) =>
              .ok ((k, w) :: wrest, st2, ex1 ++ ex2, (k, a) :: arest)

def enterTreeList (cenv : List (String × String)) (xs : List ArgTree)
    (st : Store) :
    Except ClientErr
      (List ArgTree × Store × List ExitAction × List ArgTree) :=
  match xs with
  | [] => .ok ([], st, [], [])
  | v :: rest =>
      match enterTree cenv v st with
      | .error e => .error e
      | .ok (w, st1, ex1, a) =>
          match enterTreeList cenv rest st1 with
          | .error e => .error e
          | .ok (wrest, st2, ex2, arest) =>
              .ok (w :: wrest, st2, ex1 ++ ex2, a :: arest)

def enterTreeSetElems (cenv : List (String × String)) (xs : List ArgTree)
    (st : Store) :
    Except ClientErr
      (List ArgTree × Store × List ExitAction × List ArgTree) :=
  match xs with
  | [] => .ok ([], st, [], [])
  | v :: rest =>
      match enterTree cenv v st with
      | .error e => .error e
      | .ok (w, st1, ex1, a) =>
          if pyHashable w then
            match enterTreeSetElems cenv rest st1 with
            | .error e => .error e
            | .ok (wrest, st2, ex2, arest) =>
                .ok (w :: wrest, st2, ex1 ++ ex2, a :: arest)
          else .error (.typeError "unhashable type")

end

/-- Run one deferred exit action against the store. -/
def runExit (a : ExitAction) (st : Store) : Except ClientErr Store :=
  match a with
  | .deleteId fid => .ok (st.deleteId fid)
  | .removeByName url => .ok (st.removeFromCloud url).2
  | .outStreamExit url =>
      match st.findOne url with
      | none => .error (.fileNotFound url)
      | some fid => .ok (st.deleteId fid)
  | .outLocalExit url =>
      match st.findOne url with
      | none => .ok st
      | some fid => .ok (st.deleteId fid)

/-- Run a list of exit actions in order (callers pass the reversed
enter-order list, as `ExitStack` unwinds in reverse). -/
def runExits : List ExitAction → Store → Except ClientErr Store
  | [], st => .ok st
  | a :: rest, st =>
      match runExit a st with
      | .error e => .error e
      | .ok st' => runExits rest st'

/-! ### Blob-name bookkeeping over the argument tree -/

/-- How a canonical blob name participates in one `run` call. -/
inductive UrlKind where
  | stagedLocal
  | stagedStream
  | slotLocal
  | slotStream
  | slotForeign
deriving Repr, DecidableEq

/-- Names the client stages (uploads) on entry. -/
def UrlKind.isIn : UrlKind → Bool
  | .stagedLocal | .stagedStream => true
  | _ => false

/-- Output-slot names the worker may populate. -/
def UrlKind.isOut : UrlKind → Bool
  | .slotLocal | .slotStream | .slotForeign => true
  | _ => false

mutual

/-- Canonical blob names mentioned by a parameter, with their roles,
in depth-first walk order. -/
def urlEventsP : Param → List (UrlKind × String)
  | .inLocalFile p => [(.stagedLocal, cloudUrl LOCAL_HOSTNAME p)]
  | .outLocalFile p => [(.slotLocal, cloudUrl LOCAL_HOSTNAME p)]
  | .inCloudFile _ _ => []
  | .outCloudFile p h => [(.slotForeign, cloudUrl h p)]
  | .format _ args => urlEventsArgs args
  | _ => []

def urlEventsArgs : List (String × Param) → List (UrlKind × String)
  | [] => []
  | (_, p) :: rest => urlEventsP p ++ urlEventsArgs rest

end

mutual

/-- Canonical blob names mentioned by an argument tree. -/
def urlEventsT : ArgTree → List (UrlKind × String)
  | .param p => urlEventsP p
  | .inStream fn => [(.stagedStream, streamUrl fn)]
  | .outStream fn => [(.slotStream, streamUrl fn)]
  | .dict kvs => urlEventsKVs kvs
  | .tlist xs => urlEventsList xs
  | .tup xs => urlEventsList xs
  | .tset xs => urlEventsList xs
  | _ => []

def urlEventsKVs : List (String × ArgTree) → List (UrlKind × String)
  | [] => []
  | (_, v) :: rest => urlEventsT v ++ urlEventsKVs rest

def urlEventsList : List ArgTree → List (UrlKind × String)
  | [] => []
  | v :: rest => urlEventsT v ++ urlEventsList rest

end

/-- Staged-input names of an event list, in order. -/
def inUrlsE (events : List (UrlKind × String)) : List String :=
  (events.filter (fun e => e.1.isIn)).map (·.2)

/-- Output-slot names of an event list, in order. -/
def outUrlsE (events : List (UrlKind × String)) : List String :=
  (events.filter (fun e => e.1.isOut)).map (·.2)

/-- No event is a foreign (`OutCloudFile`) output slot. -/
def noForeignE (events : List (UrlKind × String)) : Bool :=
  events.all (fun e => !(e.1 = UrlKind.slotForeign))

/-- Names the client uploads during entry, in enter order. -/
def inUrlsT (t : ArgTree) : List String :=
  inUrlsE (urlEventsT t)

/-- Output-slot names of the tree, in walk order. -/
def outUrlsT (t : ArgTree) : List String :=
  outUrlsE (urlEventsT t)

/-- No output slot is a foreign (`OutCloudFile`) parameter: every
output blob is client-originated and guarded by a client exit
action. -/
def noForeignOutT (t : ArgTree) : Bool :=
  noForeignE (urlEventsT t)

/-! ### The server-side store effect of a successful dispatch -/

mutual

/-- Output-slot names the server-side walk sees in an envelope tree
(`OutCloudFile` leaves, recursing through `Format` args as
`ProxyServerEndInvokeMiddle.FormatGuard` does). -/
def outSlotUrlsP : Param → List String
  | .outCloudFile p h => [cloudUrl h p]
  | .format _ args => outSlotUrlsArgs args
  | _ => []

def outSlotUrlsArgs : List (String × Param) → List String
  | [] => []
  | (_, p) :: rest => outSlotUrlsP p ++ outSlotUrlsArgs rest

end

mutual

def outSlotUrlsT : ArgTree → List String
  | .param p => outSlotUrlsP p
  | .dict kvs => outSlotUrlsKVs kvs
  | .tlist xs => outSlotUrlsList xs
  | .tup xs => outSlotUrlsList xs
  | .tset xs => outSlotUrlsList xs
  | _ => []

def outSlotUrlsKVs : List (String × ArgTree) → List String
  | [] => []
  | (_, v) :: rest => outSlotUrlsT v ++ outSlotUrlsKVs rest

def outSlotUrlsList : List ArgTree → List String
  | [] => []
  | v :: rest => outSlotUrlsT v ++ outSlotUrlsList rest

end

/-- Create one new entry per name, in order. -/
def Store.putAll (st : Store) : List String → Store
  | [] => st
  | u :: rest => ((st.put u).2).putAll rest

/-- The store effect of a successful server-side execution of the
envelope `w`: `ProxyServerEndInvokeMiddle.OutFileGuard` uploads the
bytes of each output slot whose local temp file the process produced
(oracle `produced`), on guard exit, i.e. in reverse walk order.  Input
downloads leave the store unchanged. -/
def serverStoreEffect (produced : String → Bool) (w : ArgTree)
    (st : Store) : Store :=
  st.putAll (((outSlotUrlsT w).reverse).filter produced)

/-- A dispatch through the broker to a worker that executes the
envelope successfully (exit code 0, no exception) and produces the
output files selected by `produced`. -/
def serverDispatch (produced : String → Bool) :
    ArgTree → Store → (Except String RunResponse) × Store :=
  fun w st => (.ok ⟨0, none⟩, serverStoreEffect produced w st)

/-! ### The full client `run` round trip -/

/-- Observable outcome of a successful client `run`: the returned
code, the final store, the wrapped tree that was serialised into the
envelope, and the caller's argument tree as it stands after the
call. -/
structure RunOutcome where
  code : Int
  store : Store
  sent : ArgTree
  callerAfter : ArgTree
deriving Repr

/-- One client `run` call over an argument tree: enter all guards
(uploading inputs), dispatch the wrapped tree, decode the response
(`packResponsePostprocess` raising `ServerEnd` on a non-null `exc`),
and unwind the `ExitStack` in reverse enter order whether or not the
dispatch succeeded.  Errors out of the enter phase, the exits, or the
response take the place of the exception propagating to the caller. -/
def clientRunWith (cenv : List (String × String))
    (dispatch : ArgTree → Store → (Except String RunResponse) × Store)
    (tree : ArgTree) (st : Store) : Except ClientErr RunOutcome :=
  match enterTree cenv tree st with
  | .error e => .error e
  | .ok (w, st1, ex, af) =>
      let (dres, st2) := dispatch w st1
      let inner : Except ClientErr Int :=
        match dres with
        | .error e => .error (.dispatchFailure e)
        | .ok resp => packResponsePostprocess resp
      match runExits ex.reverse st2 with
      | .error e2 => .error e2
      | .ok st3 =>
          match inner with
          | .error e => .error e
          | .ok rc => .ok ⟨rc, st3, w, af⟩

/-! ### Queue selection (`Client.run`) -/

/-- The prologue of `Client.run`: assert the command is a
`CmdParamBase`; for `CmdNameParam` take `queue or command.name`
(Python truthiness: an empty string counts as absent); for
`CmdPathParam` assert a queue was supplied. Returns the queue the
request is dispatched on. -/
def clientChooseQueue (command : ArgTree) (queue : Option String) :
    Except ClientErr String :=
  match command with
  | .param (.cmdName n) =>
      .ok (match queue with
           | some q => if q.isEmpty then n else q
           | none => n)
  | .param (.cmdPath _) =>
      match queue with
      | some q => .ok q
      | none =>
          .error (.assertionError
            "Queue should be specified when command is CmdPathParam")
  | _ =>
      .error (.assertionError
        "Expect command in type of CmdNameParam or CmdPathParam")

/-- The command argument is a command parameter variant. -/
def isCmdT : ArgTree → Bool
  | .param (.cmdName _) => true
  | .param (.cmdPath _) => true
  | _ => false

/-! ### Shape preservation of the client walk -/

mutual

/-- The relation between a caller's argument tree and the wrapped tree
the client walk yields: container kinds and mapping keys preserved,
scalar leaves wrapped as `Str` of their stringification, `None` passed
through, parameter and stream leaves guarded into parameter leaves. -/
inductive ShapePres : ArgTree → ArgTree → Prop where
  | pyNone : ShapePres .pyNone .pyNone
  | scalar (v : PyScalar) : ShapePres (.scalar v) (.param (.str v.pyStr))
  | param (p q : Param) : ShapePres (.param p) (.param q)
  | inStream (fn : String) (q : Param) :
      ShapePres (.inStream fn) (.param q)
  | outStream (fn : String) (q : Param) :
      ShapePres (.outStream fn) (.param q)
  | dict {kvs kvs'} : ShapePresKVs kvs kvs' →
      ShapePres (.dict kvs) (.dict kvs')
  | tlist {xs xs'} : ShapePresList xs xs' →
      ShapePres (.tlist xs) (.tlist xs')
  | tup {xs xs'} : ShapePresList xs xs' →
      ShapePres (.tup xs) (.tup xs')
  | tset {xs xs'} : ShapePresList xs xs' →
      ShapePres (.tset xs) (.tset xs')

inductive ShapePresKVs :
    List (String × ArgTree) → List (String × ArgTree) → Prop where
  | nil : ShapePresKVs [] []
  | cons (k : String) {t t' rest rest'} : ShapePres t t' →
      ShapePresKVs rest rest' →
      ShapePresKVs ((k, t) :: rest) ((k, t') :: rest')

inductive ShapePresList : List ArgTree → List ArgTree → Prop where
  | nil : ShapePresList [] []
  | cons {t t' rest rest'} : ShapePres t t' → ShapePresList rest rest' →
      ShapePresList (t :: rest) (t' :: rest')

end

/-! ## Lemmas about the blob store -/

theorem Store.existsName_eq_false {st : Store} {u : String} :
    st.existsName u = false ↔ ∀ e ∈ st.entries, ¬ e.2 = u := by
  unfold Store.existsName
  rw [← Bool.not_eq_true, List.any_eq_true]
  constructor
  · intro h e he heq
    exact h ⟨e, he, by simp [heq]⟩
  · rintro h ⟨e, he, heq⟩
    exact h e he (by simpa using heq)

theorem Store.findOne_eq_none {st : Store} {u : String}
    (h : ∀ e ∈ st.entries, ¬ e.2 = u) : st.findOne u = none := by
  unfold Store.findOne
  rw [List.find?_eq_none.mpr]
  · rfl
  · intro e he
    simpa using h e he

theorem find?_url_shaped {pre post : List (Nat × String)} {fid : Nat}
    {u : String} (hpre : ∀ e ∈ pre, ¬ e.2 = u) :
    (pre ++ (fid, u) :: post).find? (fun e => e.2 == u) = some (fid, u) := by
  rw [List.find?_append, List.find?_eq_none.mpr, Option.none_or,
    List.find?_cons]
  · simp
  · intro e he
    simpa using hpre e he

theorem Store.findOne_shaped {st : Store} {pre post : List (Nat × String)}
    {fid : Nat} {u : String} (hes : st.entries = pre ++ (fid, u) :: post)
    (hpre : ∀ e ∈ pre, ¬ e.2 = u) : st.findOne u = some fid := by
  unfold Store.findOne
  rw [hes, find?_url_shaped hpre]
  rfl

theorem Store.deleteId_shaped {st : Store} {pre post : List (Nat × String)}
    {fid : Nat} {u : String} (hes : st.entries = pre ++ (fid, u) :: post)
    (hids : (st.entries.map Prod.fst).Nodup) :
    (st.deleteId fid).entries = pre ++ post := by
  have hids' := hids
  rw [hes] at hids'
  simp only [List.map_append, List.map_cons, List.nodup_append,
    List.nodup_cons, List.disjoint_left] at hids'
  obtain ⟨hnpre, ⟨hfidpost, hnpost⟩, hdisj⟩ := hids'
  unfold Store.deleteId
  rw [hes, List.filter_append, List.filter_cons]
  have hself : ((fid, u).1 != fid) = false := by simp
  rw [hself]
  have hpre : pre.filter (fun e => e.1 != fid) = pre := by
    rw [List.filter_eq_self]
    intro e he
    have : e.1 ≠ fid := by
      intro heq
      exact hdisj (a := e.1) (List.mem_map_of_mem Prod.fst he) (by simp [heq])
    simpa using this
  have hpost : post.filter (fun e => e.1 != fid) = post := by
    rw [List.filter_eq_self]
    intro e he
    have : e.1 ≠ fid := by
      intro heq
      exact hfidpost (heq ▸ List.mem_map_of_mem Prod.fst he)
    simpa using this
  rw [hpre, hpost]
  simp

theorem Store.putAll_spec (L : List String) :
    ∀ st : Store, ∃ puts : List (Nat × String),
      (st.putAll L).entries = st.entries ++ puts ∧
      puts.map Prod.snd = L ∧
      (∀ e ∈ puts, st.nextId ≤ e.1 ∧ e.1 < (st.putAll L).nextId) ∧
      (puts.map Prod.fst).Nodup ∧
      st.nextId ≤ (st.putAll L).nextId := by
  induction L with
  | nil =>
      intro st
      exact ⟨[], by simp [Store.putAll], by simp, by simp, by simp, le_refl _⟩
  | cons u rest ih =>
      intro st
      obtain ⟨puts, h1, h2, h3, h4, h5⟩ := ih (st.put u).2
      refine ⟨(st.nextId, u) :: puts, ?_, ?_, ?_, ?_, ?_⟩
      · rw [Store.putAll, h1]
        simp [Store.put]
      · simpa using h2
      · intro e he
        rcases List.mem_cons.mp he with rfl | he'
        · refine ⟨le_refl _, ?_⟩
          have : (st.put u).2.nextId ≤ ((st.put u).2.putAll rest).nextId := h5
          simp only [Store.put] at this
          calc st.nextId < st.nextId + 1 := Nat.lt_succ_self _
            _ ≤ _ := this
        · obtain ⟨hl, hr⟩ := h3 e he'
          simp only [Store.put] at hl
          exact ⟨le_trans (Nat.le_succ _) hl, hr⟩
      · rw [List.map_cons, List.nodup_cons]
        refine ⟨?_, h4⟩
        intro hmem
        obtain ⟨e, he, heq⟩ := List.mem_map.mp hmem
        obtain ⟨hl, _⟩ := h3 e he
        simp only [Store.put] at hl
        omega
      · have : (st.put u).2.nextId ≤ ((st.put u).2.putAll rest).nextId := h5
        simp only [Store.put] at this
        calc st.nextId ≤ st.nextId + 1 := Nat.le_succ _
          _ ≤ _ := by simpa [Store.putAll] using this

theorem Store.countName_putAll (L : List String) :
    ∀ (st : Store) (u : String),
      (st.putAll L).countName u = st.countName u + L.count u := by
  induction L with
  | nil => intro st u; simp [Store.putAll]
  | cons v rest ih =>
      intro st u
      rw [Store.putAll, ih]
      unfold Store.countName
      simp only [Store.put, List.filter_append, List.length_append]
      by_cases hv : v = u
      · subst hv
        simp [List.count_cons]
        omega
      · have : ((st.nextId, v).2 == u) = false := by simpa using hv
        simp [this, List.count_cons, hv]

theorem runExits_append (a b : List ExitAction) :
    ∀ st : Store, runExits (a ++ b) st =
      match runExits a st with
      | .ok st' => runExits b st'
      | .error e => .error e := by
  induction a with
  | nil => intro st; simp [runExits]
  | cons x rest ih =>
      intro st
      rw [List.cons_append, runExits, runExits]
      cases runExit x st with
      | error e => rfl
      | ok st' => exact ih st'

/-! ## The session lemma: one guard's enter action paired with its
deferred exit action, composable in `ExitStack` nesting order. -/

@[simp] theorem inUrlsE_nil : inUrlsE [] = [] := rfl

@[simp] theorem outUrlsE_nil : outUrlsE [] = [] := rfl

@[simp] theorem inUrlsE_append (a b : List (UrlKind × String)) :
    inUrlsE (a ++ b) = inUrlsE a ++ inUrlsE b := by
  simp [inUrlsE]

@[simp] theorem outUrlsE_append (a b : List (UrlKind × String)) :
    outUrlsE (a ++ b) = outUrlsE a ++ outUrlsE b := by
  simp [outUrlsE]

@[simp] theorem noForeignE_append (a b : List (UrlKind × String)) :
    noForeignE (a ++ b) = (noForeignE a && noForeignE b) := by
  simp [noForeignE]

/-- Characterisation of one guard session: the enter phase extended
the store by exactly the freshly-staged entries, and the exit actions
— run later against a store that may have grown by a frame of
unrelated entries (`C`, `D`, `E`) and by server-produced output-slot
blobs (`puts`) — remove precisely the staged entries and those
produced slots. -/
def SessionSpec (st st1 : Store) (ex : List ExitAction)
    (events : List (UrlKind × String)) : Prop :=
  ∃ staged : List (Nat × String),
    st1.entries = st.entries ++ staged ∧
    st.nextId ≤ st1.nextId ∧
    (∀ e ∈ staged, st.nextId ≤ e.1 ∧ e.1 < st1.nextId) ∧
    (staged.map Prod.fst).Nodup ∧
    staged.map Prod.snd = inUrlsE events ∧
    (noForeignE events = true →
     (inUrlsE events ++ outUrlsE events).Nodup →
     ∀ (C D E puts : List (Nat × String)) (mid : Store),
       mid.entries = C ++ staged ++ D ++ puts ++ E →
       (∀ e ∈ C, e.2 ∉ inUrlsE events ++ outUrlsE events) →
       (∀ e ∈ D, e.2 ∉ inUrlsE events ++ outUrlsE events) →
       (∀ e ∈ E, e.2 ∉ inUrlsE events ++ outUrlsE events) →
       List.Sublist (puts.map Prod.snd) ((outUrlsE events).reverse) →
       (mid.entries.map Prod.fst).Nodup →
       ∀ out : Store, runExits ex.reverse mid = .ok out →
         out.entries = C ++ D ++ E ∧ out.nextId = mid.nextId)

theorem sessionSpec_nil (st : Store) : SessionSpec st st [] [] := by
  refine ⟨[], by simp, le_refl _, by simp, by simp, by simp, ?_⟩
  intro _ _ C D E puts mid hmid hC hD hE hputs hids out hrun
  have hpnil : puts = [] := by
    have := List.sublist_nil.mp (by simpa using hputs)
    simpa using this
  subst hpnil
  simp only [runExits, List.reverse_nil] at hrun
  cases hrun
  constructor
  · simpa using hmid
  · rfl

theorem sessionSpec_stagedLocal (st : Store) (u : String) :
    SessionSpec st (st.put u).2 [.deleteId st.nextId]
      [(.stagedLocal, u)] := by
  refine ⟨[(st.nextId, u)], by simp [Store.put], by simp [Store.put], ?_,
    by simp, by simp [inUrlsE, UrlKind.isIn], ?_⟩
  · intro e he
    simp only [List.mem_singleton] at he
    subst he
    simp [Store.put]
  · intro _ _ C D E puts mid hmid hC hD hE hputs hids out hrun
    have hpnil : puts = [] := by
      have := List.sublist_nil.mp
        (by simpa [outUrlsE, UrlKind.isOut] using hputs)
      simpa using this
    subst hpnil
    simp only [List.reverse_singleton, runExits, runExit] at hrun
    cases hrun
    refine ⟨?_, rfl⟩
    have hshape : mid.entries = C ++ (st.nextId, u) :: (D ++ E) := by
      simpa using hmid
    have := Store.deleteId_shaped hshape hids
    simpa using this

theorem sessionSpec_stagedStream (st : Store) (u : String) :
    SessionSpec st (st.put u).2 [.removeByName u]
      [(.stagedStream, u)] := by
  refine ⟨[(st.nextId, u)], by simp [Store.put], by simp [Store.put], ?_,
    by simp, by simp [inUrlsE, UrlKind.isIn], ?_⟩
  · intro e he
    simp only [List.mem_singleton] at he
    subst he
    simp [Store.put]
  · intro _ _ C D E puts mid hmid hC hD hE hputs hids out hrun
    have hpnil : puts = [] := by
      have := List.sublist_nil.mp
        (by simpa [outUrlsE, UrlKind.isOut] using hputs)
      simpa using this
    subst hpnil
    have hCu : ∀ e ∈ C, ¬ e.2 = u := by
      intro e he heq
      exact hC e he (by simp [inUrlsE, UrlKind.isIn, heq])
    have hshape : mid.entries = C ++ (st.nextId, u) :: (D ++ E) := by
      simpa using hmid
    have hfind : mid.findOne u = some st.nextId :=
      Store.findOne_shaped hshape hCu
    simp only [List.reverse_singleton, runExits, runExit,
      Store.removeFromCloud, hfind] at hrun
    cases hrun
    refine ⟨?_, rfl⟩
    have := Store.deleteId_shaped hshape hids
    simpa using this

/-- A list of entries whose names form a sublist of `[u]` is empty or
a single entry named `u`. -/
theorem puts_of_sublist_singleton {puts : List (Nat × String)}
    {u : String} (h : List.Sublist (puts.map Prod.snd) [u]) :
    puts = [] ∨ ∃ i, puts = [(i, u)] := by
  cases puts with
  | nil => exact .inl rfl
  | cons e rest =>
      right
      have h1 : List.Sublist (e.2 :: rest.map Prod.snd) [u] := by simpa using h
      have hlen := h1.length_le
      have hrest : rest = [] := by
        cases rest with
        | nil => rfl
        | cons _ _ => simp at hlen
      subst hrest
      have hmem : e.2 ∈ [u] := h1.subset (by simp)
      have heq : e.2 = u := by simpa using hmem
      exact ⟨e.1, by
        obtain ⟨i, v⟩ := e
        simp only at heq
        simp [heq]⟩

theorem sessionSpec_slotLocal (st : Store) (u : String) :
    SessionSpec st st [.outLocalExit u] [(.slotLocal, u)] := by
  refine ⟨[], by simp, le_refl _, by simp, by simp,
    by simp [inUrlsE, UrlKind.isIn], ?_⟩
  intro _ _ C D E puts mid hmid hC hD hE hputs hids out hrun
  have hCu : ∀ e ∈ C, ¬ e.2 = u := by
    intro e he heq
    exact hC e he
      (by simp [outUrlsE, UrlKind.isOut, inUrlsE, UrlKind.isIn, heq])
  have hDu : ∀ e ∈ D, ¬ e.2 = u := by
    intro e he heq
    exact hD e he
      (by simp [outUrlsE, UrlKind.isOut, inUrlsE, UrlKind.isIn, heq])
  have hEu : ∀ e ∈ E, ¬ e.2 = u := by
    intro e he heq
    exact hE e he
      (by simp [outUrlsE, UrlKind.isOut, inUrlsE, UrlKind.isIn, heq])
  have hputs' : List.Sublist (puts.map Prod.snd) [u] := by
    simpa [outUrlsE, UrlKind.isOut] using hputs
  rcases puts_of_sublist_singleton hputs' with hpnil | ⟨i, hpone⟩
  · subst hpnil
    have hshape : mid.entries = C ++ D ++ E := by simpa using hmid
    have hfind : mid.findOne u = none := by
      apply Store.findOne_eq_none
      intro e he
      rw [hshape] at he
      rcases List.mem_append.mp he with he' | he''
      · rcases List.mem_append.mp he' with h1 | h2
        · exact hCu e h1
        · exact hDu e h2
      · exact hEu e he''
    simp only [List.reverse_singleton, runExits, runExit, hfind] at hrun
    cases hrun
    exact ⟨hshape, rfl⟩
  · subst hpone
    have hshape : mid.entries = (C ++ D) ++ (i, u) :: E := by
      simpa using hmid
    have hpre : ∀ e ∈ C ++ D, ¬ e.2 = u := by
      intro e he
      rcases List.mem_append.mp he with h1 | h2
      · exact hCu e h1
      · exact hDu e h2
    have hfind : mid.findOne u = some i := Store.findOne_shaped hshape hpre
    simp only [List.reverse_singleton, runExits, runExit, hfind] at hrun
    cases hrun
    refine ⟨?_, rfl⟩
    have := Store.deleteId_shaped hshape hids
    simpa using this

theorem sessionSpec_slotStream (st : Store) (u : String) :
    SessionSpec st st [.outStreamExit u] [(.slotStream, u)] := by
  refine ⟨[], by simp, le_refl _, by simp, by simp,
    by simp [inUrlsE, UrlKind.isIn], ?_⟩
  intro _ _ C D E puts mid hmid hC hD hE hputs hids out hrun
  have hCu : ∀ e ∈ C, ¬ e.2 = u := by
    intro e he heq
    exact hC e he
      (by simp [outUrlsE, UrlKind.isOut, inUrlsE, UrlKind.isIn, heq])
  have hDu : ∀ e ∈ D, ¬ e.2 = u := by
    intro e he heq
    exact hD e he
      (by simp [outUrlsE, UrlKind.isOut, inUrlsE, UrlKind.isIn, heq])
  have hEu : ∀ e ∈ E, ¬ e.2 = u := by
    intro e he heq
    exact hE e he
      (by simp [outUrlsE, UrlKind.isOut, inUrlsE, UrlKind.isIn, heq])
  have hputs' : List.Sublist (puts.map Prod.snd) [u] := by
    simpa [outUrlsE, UrlKind.isOut] using hputs
  rcases puts_of_sublist_singleton hputs' with hpnil | ⟨i, hpone⟩
  · subst hpnil
    have hshape : mid.entries = C ++ D ++ E := by simpa using hmid
    have hfind : mid.findOne u = none := by
      apply Store.findOne_eq_none
      intro e he
      rw [hshape] at he
      rcases List.mem_append.mp he with he' | he''
      · rcases List.mem_append.mp he' with h1 | h2
        · exact hCu e h1
        · exact hDu e h2
      · exact hEu e he''
    simp only [List.reverse_singleton, runExits, runExit, hfind] at hrun
    cases hrun
  · subst hpone
    have hshape : mid.entries = (C ++ D) ++ (i, u) :: E := by
      simpa using hmid
    have hpre : ∀ e ∈ C ++ D, ¬ e.2 = u := by
      intro e he
      rcases List.mem_append.mp he with h1 | h2
      · exact hCu e h1
      · exact hDu e h2
    have hfind : mid.findOne u = some i := Store.findOne_shaped hshape hpre
    simp only [List.reverse_singleton, runExits, runExit, hfind] at hrun
    cases hrun
    refine ⟨?_, rfl⟩
    have := Store.deleteId_shaped hshape hids
    simpa using this

theorem sessionSpec_slotForeign (st : Store) (u : String) :
    SessionSpec st st [] [(.slotForeign, u)] := by
  refine ⟨[], by simp, le_refl _, by simp, by simp,
    by simp [inUrlsE, UrlKind.isIn], ?_⟩
  intro hforeign
  simp [noForeignE] at hforeign

/-- Sessions compose: entering guard 1 then guard 2 and unwinding the
`ExitStack` runs guard 2's exits before guard 1's, which is exactly
the nesting the specification tolerates. -/
theorem SessionSpec.seq {st stm st2 : Store} {ex1 ex2 : List ExitAction}
    {ev1 ev2 : List (UrlKind × String)}
    (h1 : SessionSpec st stm ex1 ev1) (h2 : SessionSpec stm st2 ex2 ev2) :
    SessionSpec st st2 (ex1 ++ ex2) (ev1 ++ ev2) := by
  obtain ⟨s1, hen1, hnx1, hbd1, hni1, hms1, hx1⟩ := h1
  obtain ⟨s2, hen2, hnx2, hbd2, hni2, hms2, hx2⟩ := h2
  refine ⟨s1 ++ s2, ?_, le_trans hnx1 hnx2, ?_, ?_, ?_, ?_⟩
  · rw [hen2, hen1, List.append_assoc]
  · intro e he
    rcases List.mem_append.mp he with h | h
    · obtain ⟨hl, hr⟩ := hbd1 e h
      exact ⟨hl, lt_of_lt_of_le hr hnx2⟩
    · obtain ⟨hl, hr⟩ := hbd2 e h
      exact ⟨le_trans hnx1 hl, hr⟩
  · rw [List.map_append, List.nodup_append]
    refine ⟨hni1, hni2, ?_⟩
    intro a ha1 ha2
    obtain ⟨e1, he1', heq1⟩ := List.mem_map.mp ha1
    obtain ⟨e2, he2', heq2⟩ := List.mem_map.mp ha2
    obtain ⟨_, hr1⟩ := hbd1 e1 he1'
    obtain ⟨hl2, _⟩ := hbd2 e2 he2'
    rw [heq1] at hr1
    rw [heq2] at hl2
    omega
  · rw [List.map_append, hms1, hms2, inUrlsE_append]
  · intro hnf hnd C D E puts mid hmid hC hD hE hputs hids out hrun
    rw [noForeignE_append, Bool.and_eq_true] at hnf
    obtain ⟨hnf1, hnf2⟩ := hnf
    simp only [inUrlsE_append, outUrlsE_append] at hnd hputs hC hD hE
    -- disjointness bookkeeping
    have hndin : (inUrlsE ev1 ++ inUrlsE ev2).Nodup :=
      (List.nodup_append.mp hnd).1
    have hndout : (outUrlsE ev1 ++ outUrlsE ev2).Nodup :=
      (List.nodup_append.mp hnd).2.1
    have hdisj : (inUrlsE ev1 ++ inUrlsE ev2).Disjoint
        (outUrlsE ev1 ++ outUrlsE ev2) := (List.nodup_append.mp hnd).2.2
    have hdj_in : (inUrlsE ev1).Disjoint (inUrlsE ev2) :=
      (List.nodup_append.mp hndin).2.2
    have hdj_out : (outUrlsE ev1).Disjoint (outUrlsE ev2) :=
      (List.nodup_append.mp hndout).2.2
    have hnd1' : (inUrlsE ev1 ++ outUrlsE ev1).Nodup := by
      refine List.Nodup.sublist ?_ hnd
      exact List.Sublist.append (List.sublist_append_left _ _)
        (List.sublist_append_left _ _)
    have hnd2' : (inUrlsE ev2 ++ outUrlsE ev2).Nodup := by
      refine List.Nodup.sublist ?_ hnd
      exact List.Sublist.append (List.sublist_append_right _ _)
        (List.sublist_append_right _ _)
    have f1 : ∀ u ∈ inUrlsE ev1, u ∉ inUrlsE ev2 ++ outUrlsE ev2 := by
      intro u hu hmem
      rcases List.mem_append.mp hmem with h | h
      · exact hdj_in hu h
      · exact hdisj (List.mem_append_left _ hu) (List.mem_append_right _ h)
    have f2 : ∀ u ∈ outUrlsE ev1, u ∉ inUrlsE ev2 ++ outUrlsE ev2 := by
      intro u hu hmem
      rcases List.mem_append.mp hmem with h | h
      · exact hdisj.symm (List.mem_append_left _ hu) (List.mem_append_right _ h)
      · exact hdj_out hu h
    have f3 : ∀ u ∈ inUrlsE ev2, u ∉ inUrlsE ev1 ++ outUrlsE ev1 := by
      intro u hu hmem
      rcases List.mem_append.mp hmem with h | h
      · exact hdj_in.symm hu h
      · exact hdisj (List.mem_append_right _ hu) (List.mem_append_left _ h)
    have f4 : ∀ u ∈ outUrlsE ev2, u ∉ inUrlsE ev1 ++ outUrlsE ev1 := by
      intro u hu hmem
      rcases List.mem_append.mp hmem with h | h
      · exact hdisj.symm (List.mem_append_right _ hu) (List.mem_append_left _ h)
      · exact hdj_out.symm hu h
    -- split the produced entries along the two slot-url blocks
    rw [List.reverse_append, List.sublist_append_iff] at hputs
    obtain ⟨la, lb, hab, hla, hlb⟩ := hputs
    rw [List.map_eq_append_iff] at hab
    obtain ⟨P2, P1, rfl, hmP2, hmP1⟩ := hab
    rw [← hmP2] at hla
    rw [← hmP1] at hlb
    -- run the second guard's exits first
    rw [List.reverse_append, runExits_append] at hrun
    cases hr2 : runExits ex2.reverse mid with
    | error e => rw [hr2] at hrun; cases hrun
    | ok o2 =>
        rw [hr2] at hrun
        have happ2 := hx2 hnf2 hnd2' (C ++ s1) D (P1 ++ E) P2 mid
          (by simp only [List.append_assoc] at hmid ⊢; exact hmid)
          (by
            intro e he
            rcases List.mem_append.mp he with h | h
            · intro hmem
              exact hC e h (by
                rcases List.mem_append.mp hmem with hm | hm
                · exact List.mem_append_left _ (List.mem_append_right _ hm)
                · exact List.mem_append_right _ (List.mem_append_right _ hm))
            · have : e.2 ∈ inUrlsE ev1 := by
                rw [← hms1]
                exact List.mem_map_of_mem Prod.snd h
              exact f1 e.2 this)
          (by
            intro e he hmem
            exact hD e he (by
              rcases List.mem_append.mp hmem with hm | hm
              · exact List.mem_append_left _ (List.mem_append_right _ hm)
              · exact List.mem_append_right _ (List.mem_append_right _ hm)))
          (by
            intro e he
            rcases List.mem_append.mp he with h | h
            · have : e.2 ∈ outUrlsE ev1 := by
                have hmm : e.2 ∈ P1.map Prod.snd :=
                  List.mem_map_of_mem Prod.snd h
                have := hlb.subset hmm
                simpa using this
              exact f2 e.2 this
            · intro hmem
              exact hE e h (by
                rcases List.mem_append.mp hmem with hm | hm
                · exact List.mem_append_left _ (List.mem_append_right _ hm)
                · exact List.mem_append_right _ (List.mem_append_right _ hm)))
          hla hids o2 hr2
        obtain ⟨ho2, hnx⟩ := happ2
        have hsub : List.Sublist o2.entries mid.entries := by
          rw [ho2]
          rw [show mid.entries =
              (C ++ s1) ++ ((s2 ++ D) ++ (P2 ++ (P1 ++ E))) by
            simp only [List.append_assoc] at hmid ⊢; exact hmid]
          rw [show (C ++ s1) ++ D ++ (P1 ++ E) =
              (C ++ s1) ++ (D ++ (P1 ++ E)) by simp [List.append_assoc]]
          exact List.Sublist.append (List.Sublist.refl _)
            (List.Sublist.append (List.sublist_append_right _ _)
              (List.sublist_append_right _ _))
        have hidso2 : (o2.entries.map Prod.fst).Nodup :=
          List.Nodup.sublist (List.Sublist.map _ hsub) hids
        have happ1 := hx1 hnf1 hnd1' C D E P1 o2
          (by simp only [List.append_assoc] at ho2 ⊢; exact ho2)
          (by
            intro e he hmem
            exact hC e he (by
              rcases List.mem_append.mp hmem with hm | hm
              · exact List.mem_append_left _ (List.mem_append_left _ hm)
              · exact List.mem_append_right _ (List.mem_append_left _ hm)))
          (by
            intro e he hmem
            exact hD e he (by
              rcases List.mem_append.mp hmem with hm | hm
              · exact List.mem_append_left _ (List.mem_append_left _ hm)
              · exact List.mem_append_right _ (List.mem_append_left _ hm)))
          (by
            intro e he hmem
            exact hE e he (by
              rcases List.mem_append.mp hmem with hm | hm
              · exact List.mem_append_left _ (List.mem_append_left _ hm)
              · exact List.mem_append_right _ (List.mem_append_left _ hm)))
          hlb hidso2 out hrun
        exact ⟨happ1.1, happ1.2.trans hnx⟩

/-! Connecting the enter phase to the session specification. -/

theorem ipath_asCloud_url (fn : String) :
    ((Param.ipath fn).asCloud).cloudUrlD = streamUrl fn := by
  unfold Param.ipath streamUrl
  cases h : parseCloudUrl fn with
  | none => simp [Param.asCloud, Param.cloudUrlD, Param.cloudUrl?]
  | some hp =>
      obtain ⟨hst, pth⟩ := hp
      simp [Param.asCloud, Param.cloudUrlD, Param.cloudUrl?]

theorem opath_asCloud_url (fn : String) :
    ((Param.opath fn).asCloud).cloudUrlD = streamUrl fn := by
  unfold Param.opath streamUrl
  cases h : parseCloudUrl fn with
  | none => simp [Param.asCloud, Param.cloudUrlD, Param.cloudUrl?]
  | some hp =>
      obtain ⟨hst, pth⟩ := hp
      simp [Param.asCloud, Param.cloudUrlD, Param.cloudUrl?]

theorem ipath_asCloud_outSlots (fn : String) :
    outSlotUrlsP ((Param.ipath fn).asCloud) = [] := by
  unfold Param.ipath
  cases h : parseCloudUrl fn with
  | none => simp [Param.asCloud, outSlotUrlsP]
  | some hp =>
      obtain ⟨hst, pth⟩ := hp
      simp [Param.asCloud, outSlotUrlsP]

theorem opath_asCloud_outSlots (fn : String) :
    outSlotUrlsP ((Param.opath fn).asCloud) = [streamUrl fn] := by
  unfold Param.opath streamUrl
  cases h : parseCloudUrl fn with
  | none => simp [Param.asCloud, outSlotUrlsP]
  | some hp =>
      obtain ⟨hst, pth⟩ := hp
      simp [Param.asCloud, outSlotUrlsP]

mutual

theorem sessionParam (cenv : List (String × String)) (p : Param) :
    ∀ st w st1 ex af, enterParam cenv p st = .ok (w, st1, ex, af) →
      SessionSpec st st1 ex (urlEventsP p) ∧
      outSlotUrlsP w = outUrlsE (urlEventsP p) := by
  cases p with
  | str v =>
      intro st w st1 ex af h
      simp only [enterParam, Except.ok.injEq, Prod.mk.injEq] at h
      obtain ⟨rfl, rfl, rfl, rfl⟩ := h
      exact ⟨sessionSpec_nil st, rfl⟩
  | env n =>
      intro st w st1 ex af h
      simp only [enterParam] at h
      cases hv : lookupEnv cenv n with
      | none => rw [hv] at h; cases h
      | some v =>
          rw [hv] at h
          simp only [Except.ok.injEq, Prod.mk.injEq] at h
          obtain ⟨rfl, rfl, rfl, rfl⟩ := h
          exact ⟨sessionSpec_nil st, rfl⟩
  | remoteEnv n =>
      intro st w st1 ex af h
      simp only [enterParam, Except.ok.injEq, Prod.mk.injEq] at h
      obtain ⟨rfl, rfl, rfl, rfl⟩ := h
      exact ⟨sessionSpec_nil st, rfl⟩
  | cmdName n =>
      intro st w st1 ex af h
      simp only [enterParam, Except.ok.injEq, Prod.mk.injEq] at h
      obtain ⟨rfl, rfl, rfl, rfl⟩ := h
      exact ⟨sessionSpec_nil st, rfl⟩
  | cmdPath pth =>
      intro st w st1 ex af h
      simp only [enterParam, Except.ok.injEq, Prod.mk.injEq] at h
      obtain ⟨rfl, rfl, rfl, rfl⟩ := h
      exact ⟨sessionSpec_nil st, rfl⟩
  | format t args =>
      intro st w st1 ex af h
      simp only [enterParam] at h
      cases ha : enterParamArgs cenv args st with
      | error e => rw [ha] at h; cases h
      | ok q =>
          obtain ⟨wargs, st', ex0, arest⟩ := q
          rw [ha] at h
          simp only [Except.ok.injEq, Prod.mk.injEq] at h
          obtain ⟨rfl, rfl, rfl, rfl⟩ := h
          obtain ⟨hs, hw⟩ := sessionParamArgs cenv args st wargs st' ex0 arest ha
          exact ⟨hs, by simpa [outSlotUrlsP, urlEventsP] using hw⟩
  | inLocalFile pth =>
      intro st w st1 ex af h
      simp only [enterParam, Except.ok.injEq, Prod.mk.injEq] at h
      obtain ⟨rfl, rfl, rfl, rfl⟩ := h
      refine ⟨?_, rfl⟩
      simpa [urlEventsP] using
        sessionSpec_stagedLocal st (cloudUrl LOCAL_HOSTNAME pth)
  | inCloudFile pth hst =>
      intro st w st1 ex af h
      simp only [enterParam, Except.ok.injEq, Prod.mk.injEq] at h
      obtain ⟨rfl, rfl, rfl, rfl⟩ := h
      exact ⟨sessionSpec_nil st, rfl⟩
  | outLocalFile pth =>
      intro st w st1 ex af h
      simp only [enterParam, Except.ok.injEq, Prod.mk.injEq] at h
      obtain ⟨rfl, rfl, rfl, rfl⟩ := h
      refine ⟨?_, ?_⟩
      · simpa [urlEventsP] using
          sessionSpec_slotLocal st (cloudUrl LOCAL_HOSTNAME pth)
      · simp [outSlotUrlsP, urlEventsP, outUrlsE, UrlKind.isOut]
  | outCloudFile pth hst =>
      intro st w st1 ex af h
      simp only [enterParam, Except.ok.injEq, Prod.mk.injEq] at h
      obtain ⟨rfl, rfl, rfl, rfl⟩ := h
      refine ⟨?_, ?_⟩
      · simpa [urlEventsP] using
          sessionSpec_slotForeign st (cloudUrl hst pth)
      · simp [outSlotUrlsP, urlEventsP, outUrlsE, UrlKind.isOut]
termination_by sizeOf p

theorem sessionParamArgs (cenv : List (String × String))
    (args : List (String × Param)) :
    ∀ st w st1 ex af, enterParamArgs cenv args st = .ok (w, st1, ex, af) →
      SessionSpec st st1 ex (urlEventsArgs args) ∧
      outSlotUrlsArgs w = outUrlsE (urlEventsArgs args) := by
  cases args with
  | nil =>
      intro st w st1 ex af h
      simp only [enterParamArgs, Except.ok.injEq, Prod.mk.injEq] at h
      obtain ⟨rfl, rfl, rfl, rfl⟩ := h
      exact ⟨sessionSpec_nil st, rfl⟩
  | cons kp rest =>
      obtain ⟨k, p⟩ := kp
      intro st w st1 ex af h
      simp only [enterParamArgs] at h
      cases hp : enterParam cenv p st with
      | error e => rw [hp] at h; cases h
      | ok q =>
          obtain ⟨w1, stm, ex1, a1⟩ := q
          rw [hp] at h
          dsimp only at h
          cases hr : enterParamArgs cenv rest stm with
          | error e => rw [hr] at h; cases h
          | ok q2 =>
              obtain ⟨wrest, st2', ex2, arest⟩ := q2
              rw [hr] at h
              simp only [Except.ok.injEq, Prod.mk.injEq] at h
              obtain ⟨rfl, rfl, rfl, rfl⟩ := h
              obtain ⟨hs1, hw1⟩ := sessionParam cenv p st w1 stm ex1 a1 hp
              obtain ⟨hs2, hw2⟩ :=
                sessionParamArgs cenv rest stm wrest st2' ex2 arest hr
              refine ⟨?_, ?_⟩
              · simpa [urlEventsArgs] using hs1.seq hs2
              · simp [outSlotUrlsArgs, urlEventsArgs, hw1, hw2]
termination_by sizeOf args

end

mutual

theorem sessionTree (cenv : List (String × String)) (t : ArgTree) :
    ∀ st w st1 ex af, enterTree cenv t st = .ok (w, st1, ex, af) →
      SessionSpec st st1 ex (urlEventsT t) ∧
      outSlotUrlsT w = outUrlsE (urlEventsT t) := by
  cases t with
  | pyNone =>
      intro st w st1 ex af h
      simp only [enterTree, Except.ok.injEq, Prod.mk.injEq] at h
      obtain ⟨rfl, rfl, rfl, rfl⟩ := h
      exact ⟨sessionSpec_nil st, rfl⟩
  | scalar v =>
      intro st w st1 ex af h
      simp only [enterTree, Except.ok.injEq, Prod.mk.injEq] at h
      obtain ⟨rfl, rfl, rfl, rfl⟩ := h
      exact ⟨sessionSpec_nil st, rfl⟩
  | param p =>
      intro st w st1 ex af h
      simp only [enterTree] at h
      cases hp : enterParam cenv p st with
      | error e => rw [hp] at h; cases h
      | ok q =>
          obtain ⟨w1, st1', ex1, a1⟩ := q
          rw [hp] at h
          simp only [Except.ok.injEq, Prod.mk.injEq] at h
          obtain ⟨rfl, rfl, rfl, rfl⟩ := h
          obtain ⟨hs, hw⟩ := sessionParam cenv p st w1 st1' ex1 a1 hp
          exact ⟨by simpa [urlEventsT] using hs,
            by simpa [outSlotUrlsT, urlEventsT] using hw⟩
  | inStream fn =>
      intro st w st1 ex af h
      simp only [enterTree, Except.ok.injEq, Prod.mk.injEq] at h
      obtain ⟨rfl, rfl, rfl, rfl⟩ := h
      rw [ipath_asCloud_url]
      refine ⟨?_, ?_⟩
      · simpa [urlEventsT] using
          sessionSpec_stagedStream st (streamUrl fn)
      · simp only [outSlotUrlsT, ipath_asCloud_outSlots]
        simp [urlEventsT, outUrlsE, UrlKind.isOut]
  | outStream fn =>
      intro st w st1 ex af h
      simp only [enterTree, Except.ok.injEq, Prod.mk.injEq] at h
      obtain ⟨rfl, rfl, rfl, rfl⟩ := h
      rw [opath_asCloud_url]
      refine ⟨?_, ?_⟩
      · simpa [urlEventsT] using
          sessionSpec_slotStream st (streamUrl fn)
      · simp only [outSlotUrlsT, opath_asCloud_outSlots]
        simp [urlEventsT, outUrlsE, UrlKind.isOut]
  | dict kvs =>
      intro st w st1 ex af h
      simp only [enterTree] at h
      cases hk : enterTreeKVs cenv kvs st with
      | error e => rw [hk] at h; cases h
      | ok q =>
          obtain ⟨w1, st1', ex1, a1⟩ := q
          rw [hk] at h
          simp only [Except.ok.injEq, Prod.mk.injEq] at h
          obtain ⟨rfl, rfl, rfl, rfl⟩ := h
          obtain ⟨hs, hw⟩ := sessionTreeKVs cenv kvs st w1 st1' ex1 a1 hk
          exact ⟨by simpa [urlEventsT] using hs,
            by simpa [outSlotUrlsT, urlEventsT] using hw⟩
  | tlist xs =>
      intro st w st1 ex af h
      simp only [enterTree] at h
      cases hk : enterTreeList cenv xs st with
      | error e => rw [hk] at h; cases h
      | ok q =>
          obtain ⟨w1, st1', ex1, a1⟩ := q
          rw [hk] at h
          simp only [Except.ok.injEq, Prod.mk.injEq] at h
          obtain ⟨rfl, rfl, rfl, rfl⟩ := h
          obtain ⟨hs, hw⟩ := sessionTreeList cenv xs st w1 st1' ex1 a1 hk
          exact ⟨by simpa [urlEventsT] using hs,
            by simpa [outSlotUrlsT, urlEventsT] using hw⟩
  | tup xs =>
      intro st w st1 ex af h
      simp only [enterTree] at h
      cases hk : enterTreeList cenv xs st with
      | error e => rw [hk] at h; cases h
      | ok q =>
          obtain ⟨w1, st1', ex1, a1⟩ := q
          rw [hk] at h
          simp only [Except.ok.injEq, Prod.mk.injEq] at h
          obtain ⟨rfl, rfl, rfl, rfl⟩ := h
          obtain ⟨hs, hw⟩ := sessionTreeList cenv xs st w1 st1' ex1 a1 hk
          exact ⟨by simpa [urlEventsT] using hs,
            by simpa [outSlotUrlsT, urlEventsT] using hw⟩
  | tset xs =>
      intro st w st1 ex af h
      simp only [enterTree] at h
      cases hk : enterTreeSetElems cenv xs st with
      | error e => rw [hk] at h; cases h
      | ok q =>
          obtain ⟨w1, st1', ex1, a1⟩ := q
          rw [hk] at h
          simp only [Except.ok.injEq, Prod.mk.injEq] at h
          obtain ⟨rfl, rfl, rfl, rfl⟩ := h
          obtain ⟨hs, hw⟩ := sessionTreeSetElems cenv xs st w1 st1' ex1 a1 hk
          exact ⟨by simpa [urlEventsT] using hs,
            by simpa [outSlotUrlsT, urlEventsT] using hw⟩
termination_by sizeOf t

theorem sessionTreeKVs (cenv : List (String × String))
    (kvs : List (String × ArgTree)) :
    ∀ st w st1 ex af, enterTreeKVs cenv kvs st = .ok (w, st1, ex, af) →
      SessionSpec st st1 ex (urlEventsKVs kvs) ∧
      outSlotUrlsKVs w = outUrlsE (urlEventsKVs kvs) := by
  cases kvs with
  | nil =>
      intro st w st1 ex af h
      simp only [enterTreeKVs, Except.ok.injEq, Prod.mk.injEq] at h
      obtain ⟨rfl, rfl, rfl, rfl⟩ := h
      exact ⟨sessionSpec_nil st, rfl⟩
  | cons kv rest =>
      obtain ⟨k, v⟩ := kv
      intro st w st1 ex af h
      simp only [enterTreeKVs] at h
      cases hp : enterTree cenv v st with
      | error e => rw [hp] at h; cases h
      | ok q =>
          obtain ⟨w1, stm, ex1, a1⟩ := q
          rw [hp] at h
          dsimp only at h
          cases hr : enterTreeKVs cenv rest stm with
          | error e => rw [hr] at h; cases h
          | ok q2 =>
              obtain ⟨wrest, st2', ex2, arest⟩ := q2
              rw [hr] at h
              simp only [Except.ok.injEq, Prod.mk.injEq] at h
              obtain ⟨rfl, rfl, rfl, rfl⟩ := h
              obtain ⟨hs1, hw1⟩ := sessionTree cenv v st w1 stm ex1 a1 hp
              obtain ⟨hs2, hw2⟩ :=
                sessionTreeKVs cenv rest stm wrest st2' ex2 arest hr
              refine ⟨?_, ?_⟩
              · simpa [urlEventsKVs] using hs1.seq hs2
              · simp [outSlotUrlsKVs, urlEventsKVs, hw1, hw2]
termination_by sizeOf kvs

theorem sessionTreeList (cenv : List (String × String))
    (xs : List ArgTree) :
    ∀ st w st1 ex af, enterTreeList cenv xs st = .ok (w, st1, ex, af) →
      SessionSpec st st1 ex (urlEventsList xs) ∧
      outSlotUrlsList w = outUrlsE (urlEventsList xs) := by
  cases xs with
  | nil =>
      intro st w st1 ex af h
      simp only [enterTreeList, Except.ok.injEq, Prod.mk.injEq] at h
      obtain ⟨rfl, rfl, rfl, rfl⟩ := h
      exact ⟨sessionSpec_nil st, rfl⟩
  | cons v rest =>
      intro st w st1 ex af h
      simp only [enterTreeList] at h
      cases hp : enterTree cenv v st with
      | error e => rw [hp] at h; cases h
      | ok q =>
          obtain ⟨w1, stm, ex1, a1⟩ := q
          rw [hp] at h
          dsimp only at h
          cases hr : enterTreeList cenv rest stm with
          | error e => rw [hr] at h; cases h
          | ok q2 =>
              obtain ⟨wrest, st2', ex2, arest⟩ := q2
              rw [hr] at h
              simp only [Except.ok.injEq, Prod.mk.injEq] at h
              obtain ⟨rfl, rfl, rfl, rfl⟩ := h
              obtain ⟨hs1, hw1⟩ := sessionTree cenv v st w1 stm ex1 a1 hp
              obtain ⟨hs2, hw2⟩ :=
                sessionTreeList cenv rest stm wrest st2' ex2 arest hr
              refine ⟨?_, ?_⟩
              · simpa [urlEventsList] using hs1.seq hs2
              · simp [outSlotUrlsList, urlEventsList, hw1, hw2]
termination_by sizeOf xs

theorem sessionTreeSetElems (cenv : List (String × String))
    (xs : List ArgTree) :
    ∀ st w st1 ex af, enterTreeSetElems cenv xs st = .ok (w, st1, ex, af) →
      SessionSpec st st1 ex (urlEventsList xs) ∧
      outSlotUrlsList w = outUrlsE (urlEventsList xs) := by
  cases xs with
  | nil =>
      intro st w st1 ex af h
      simp only [enterTreeSetElems, Except.ok.injEq, Prod.mk.injEq] at h
      obtain ⟨rfl, rfl, rfl, rfl⟩ := h
      exact ⟨sessionSpec_nil st, rfl⟩
  | cons v rest =>
      intro st w st1 ex af h
      simp only [enterTreeSetElems] at h
      cases hp : enterTree cenv v st with
      | error e => rw [hp] at h; cases h
      | ok q =>
          obtain ⟨w1, stm, ex1, a1⟩ := q
          rw [hp] at h
          dsimp only at h
          cases hh : pyHashable w1 with
          | false => rw [hh] at h; simp at h
          | true =>
              rw [hh] at h
              simp only [if_true] at h
              cases hr : enterTreeSetElems cenv rest stm with
              | error e => rw [hr] at h; simp at h
              | ok q2 =>
                  obtain ⟨wrest, st2', ex2, arest⟩ := q2
                  rw [hr] at h
                  simp only [Except.ok.injEq, Prod.mk.injEq] at h
                  obtain ⟨rfl, rfl, rfl, rfl⟩ := h
                  obtain ⟨hs1, hw1⟩ := sessionTree cenv v st w1 stm ex1 a1 hp
                  obtain ⟨hs2, hw2⟩ :=
                    sessionTreeSetElems cenv rest stm wrest st2' ex2 arest hr
                  refine ⟨?_, ?_⟩
                  · simpa [urlEventsList] using hs1.seq hs2
                  · simp [outSlotUrlsList, urlEventsList, hw1, hw2]
termination_by sizeOf xs

end

/-- Ids in three blocks with increasing bounds are collectively
distinct. -/
theorem nodup_ids_blocks {A B C : List (Nat × String)} {n1 n2 : Nat}
    (hn12 : n1 ≤ n2)
    (hA : (A.map Prod.fst).Nodup) (hAb : ∀ e ∈ A, e.1 < n1)
    (hB : (B.map Prod.fst).Nodup) (hBb : ∀ e ∈ B, n1 ≤ e.1 ∧ e.1 < n2)
    (hC : (C.map Prod.fst).Nodup) (hCb : ∀ e ∈ C, n2 ≤ e.1) :
    (((A ++ B) ++ C).map Prod.fst).Nodup := by
  rw [List.map_append, List.nodup_append]
  refine ⟨?_, hC, ?_⟩
  · rw [List.map_append, List.nodup_append]
    refine ⟨hA, hB, ?_⟩
    intro a ha hb
    obtain ⟨e1, he1, heq1⟩ := List.mem_map.mp ha
    obtain ⟨e2, he2, heq2⟩ := List.mem_map.mp hb
    have h1 := hAb e1 he1
    have h2 := (hBb e2 he2).1
    rw [heq1] at h1
    rw [heq2] at h2
    omega
  · intro a ha hc
    obtain ⟨e2, he2, heq2⟩ := List.mem_map.mp hc
    have h2 := hCb e2 he2
    rw [heq2] at h2
    rw [List.map_append, List.mem_append] at ha
    rcases ha with h | h
    · obtain ⟨e1, he1, heq1⟩ := List.mem_map.mp h
      have h1 := hAb e1 he1
      rw [heq1] at h1
      omega
    · obtain ⟨e1, he1, heq1⟩ := List.mem_map.mp h
      have h1 := (hBb e1 he1).2
      rw [heq1] at h1
      omega

/-- The store effect of a successful dispatch, characterised. -/
theorem serverStoreEffect_spec (produced : String → Bool) (w : ArgTree)
    (st1 : Store) :
    ∃ puts : List (Nat × String),
      (serverStoreEffect produced w st1).entries = st1.entries ++ puts ∧
      puts.map Prod.snd = ((outSlotUrlsT w).reverse).filter produced ∧
      (∀ e ∈ puts, st1.nextId ≤ e.1) ∧
      (puts.map Prod.fst).Nodup := by
  obtain ⟨puts, h1, h2, h3, h4, h5⟩ :=
    Store.putAll_spec (((outSlotUrlsT w).reverse).filter produced) st1
  exact ⟨puts, h1, h2, fun e he => (h3 e he).1, h4⟩

/-- The main store-preservation result behind claim C1: a successful
`run` over a tree whose output slots are all client-originated, whose
staged and slot names are pairwise distinct, and whose names are free
in the store at entry, leaves the store's entries exactly as they
were. -/
theorem clientRun_store_preserved (cenv : List (String × String))
    (produced : String → Bool) (tree : ArgTree) (st : Store)
    (out : RunOutcome)
    (hwf : Store.WF st)
    (hforeign : noForeignOutT tree = true)
    (hnd : (inUrlsT tree ++ outUrlsT tree).Nodup)
    (hfree : ∀ u ∈ inUrlsT tree ++ outUrlsT tree, st.existsName u = false)
    (hrun : clientRunWith cenv (serverDispatch produced) tree st = .ok out) :
    out.store.entries = st.entries := by
  unfold clientRunWith at hrun
  cases he : enterTree cenv tree st with
  | error e => rw [he] at hrun; cases hrun
  | ok q =>
      obtain ⟨w, st1, ex, af⟩ := q
      rw [he] at hrun
      simp only [serverDispatch, packResponsePostprocess] at hrun
      cases hrx : runExits ex.reverse (serverStoreEffect produced w st1) with
      | error e2 => rw [hrx] at hrun; cases hrun
      | ok st3 =>
          rw [hrx] at hrun
          simp only [Except.ok.injEq] at hrun
          subst hrun
          obtain ⟨hs, hws⟩ := sessionTree cenv tree st w st1 ex af he
          obtain ⟨staged, hen, hnx, hbd, hnid, hmsn, hexit⟩ := hs
          obtain ⟨puts, hp1, hp2, hp3, hp4⟩ :=
            serverStoreEffect_spec produced w st1
          have hmid : (serverStoreEffect produced w st1).entries =
              st.entries ++ staged ++ [] ++ puts ++ [] := by
            rw [hp1, hen]
            simp
          have hC : ∀ e ∈ st.entries,
              e.2 ∉ inUrlsE (urlEventsT tree) ++
                outUrlsE (urlEventsT tree) := by
            intro e hmem hin
            have hfr := hfree e.2 hin
            rw [Store.existsName_eq_false] at hfr
            exact hfr e hmem rfl
          have hputs : List.Sublist (puts.map Prod.snd)
              ((outUrlsE (urlEventsT tree)).reverse) := by
            rw [hp2, hws]
            exact List.filter_sublist _
          have hids : (((serverStoreEffect produced w st1).entries.map
              Prod.fst)).Nodup := by
            rw [hmid]
            have hsplit : st.entries ++ staged ++ [] ++ puts ++ [] =
                (st.entries ++ staged) ++ puts := by simp
            rw [hsplit]
            refine nodup_ids_blocks hnx hwf.1 hwf.2 hnid ?_ hp4 ?_
            · intro e hee
              exact hbd e hee
            · intro e hee
              exact hp3 e hee
          have hconc := hexit hforeign hnd st.entries [] [] puts
            (serverStoreEffect produced w st1) hmid hC
            (by intro e hee; cases hee) (by intro e hee; cases hee)
            hputs hids st3 hrx
          simpa using hconc.1

/-! ## Shape preservation of the client walk -/

mutual

theorem shapeTree (cenv : List (String × String)) (t : ArgTree) :
    ∀ st w st1 ex af, enterTree cenv t st = .ok (w, st1, ex, af) →
      ShapePres t w := by
  cases t with
  | pyNone =>
      intro st w st1 ex af h
      simp only [enterTree, Except.ok.injEq, Prod.mk.injEq] at h
      obtain ⟨rfl, rfl, rfl, rfl⟩ := h
      exact .pyNone
  | scalar v =>
      intro st w st1 ex af h
      simp only [enterTree, Except.ok.injEq, Prod.mk.injEq] at h
      obtain ⟨rfl, rfl, rfl, rfl⟩ := h
      exact .scalar v
  | param p =>
      intro st w st1 ex af h
      simp only [enterTree] at h
      cases hp : enterParam cenv p st with
      | error e => rw [hp] at h; cases h
      | ok q =>
          obtain ⟨w1, st1', ex1, a1⟩ := q
          rw [hp] at h
          simp only [Except.ok.injEq, Prod.mk.injEq] at h
          obtain ⟨rfl, rfl, rfl, rfl⟩ := h
          exact .param p w1
  | inStream fn =>
      intro st w st1 ex af h
      simp only [enterTree, Except.ok.injEq, Prod.mk.injEq] at h
      obtain ⟨rfl, rfl, rfl, rfl⟩ := h
      exact .inStream fn _
  | outStream fn =>
      intro st w st1 ex af h
      simp only [enterTree, Except.ok.injEq, Prod.mk.injEq] at h
      obtain ⟨rfl, rfl, rfl, rfl⟩ := h
      exact .outStream fn _
  | dict kvs =>
      intro st w st1 ex af h
      simp only [enterTree] at h
      cases hk : enterTreeKVs cenv kvs st with
      | error e => rw [hk] at h; cases h
      | ok q =>
          obtain ⟨w1, st1', ex1, a1⟩ := q
          rw [hk] at h
          simp only [Except.ok.injEq, Prod.mk.injEq] at h
          obtain ⟨rfl, rfl, rfl, rfl⟩ := h
          exact .dict (shapeKVs cenv kvs st w1 st1' ex1 a1 hk)
  | tlist xs =>
      intro st w st1 ex af h
      simp only [enterTree] at h
      cases hk : enterTreeList cenv xs st with
      | error e => rw [hk] at h; cases h
      | ok q =>
          obtain ⟨w1, st1', ex1, a1⟩ := q
          rw [hk] at h
          simp only [Except.ok.injEq, Prod.mk.injEq] at h
          obtain ⟨rfl, rfl, rfl, rfl⟩ := h
          exact .tlist (shapeList cenv xs st w1 st1' ex1 a1 hk)
  | tup xs =>
      intro st w st1 ex af h
      simp only [enterTree] at h
      cases hk : enterTreeList cenv xs st with
      | error e => rw [hk] at h; cases h
      | ok q =>
          obtain ⟨w1, st1', ex1, a1⟩ := q
          rw [hk] at h
          simp only [Except.ok.injEq, Prod.mk.injEq] at h
          obtain ⟨rfl, rfl, rfl, rfl⟩ := h
          exact .tup (shapeList cenv xs st w1 st1' ex1 a1 hk)
  | tset xs =>
      intro st w st1 ex af h
      simp only [enterTree] at h
      cases hk : enterTreeSetElems cenv xs st with
      | error e => rw [hk] at h; cases h
      | ok q =>
          obtain ⟨w1, st1', ex1, a1⟩ := q
          rw [hk] at h
          simp only [Except.ok.injEq, Prod.mk.injEq] at h
          obtain ⟨rfl, rfl, rfl, rfl⟩ := h
          exact .tset (shapeSetElems cenv xs st w1 st1' ex1 a1 hk)
termination_by sizeOf t

theorem shapeKVs (cenv : List (String × String))
    (kvs : List (String × ArgTree)) :
    ∀ st w st1 ex af, enterTreeKVs cenv kvs st = .ok (w, st1, ex, af) →
      ShapePresKVs kvs w := by
  cases kvs with
  | nil =>
      intro st w st1 ex af h
      simp only [enterTreeKVs, Except.ok.injEq, Prod.mk.injEq] at h
      obtain ⟨rfl, rfl, rfl, rfl⟩ := h
      exact .nil
  | cons kv rest =>
      obtain ⟨k, v⟩ := kv
      intro st w st1 ex af h
      simp only [enterTreeKVs] at h
      cases hp : enterTree cenv v st with
      | error e => rw [hp] at h; cases h
      | ok q =>
          obtain ⟨w1, stm, ex1, a1⟩ := q
          rw [hp] at h
          dsimp only at h
          cases hr : enterTreeKVs cenv rest stm with
          | error e => rw [hr] at h; cases h
          | ok q2 =>
              obtain ⟨wrest, st2', ex2, arest⟩ := q2
              rw [hr] at h
              simp only [Except.ok.injEq, Prod.mk.injEq] at h
              obtain ⟨rfl, rfl, rfl, rfl⟩ := h
              exact .cons k (shapeTree cenv v st w1 stm ex1 a1 hp)
                (shapeKVs cenv rest stm wrest st2' ex2 arest hr)
termination_by sizeOf kvs

theorem shapeList (cenv : List (String × String)) (xs : List ArgTree) :
    ∀ st w st1 ex af, enterTreeList cenv xs st = .ok (w, st1, ex, af) →
      ShapePresList xs w := by
  cases xs with
  | nil =>
      intro st w st1 ex af h
      simp only [enterTreeList, Except.ok.injEq, Prod.mk.injEq] at h
      obtain ⟨rfl, rfl, rfl, rfl⟩ := h
      exact .nil
  | cons v rest =>
      intro st w st1 ex af h
      simp only [enterTreeList] at h
      cases hp : enterTree cenv v st with
      | error e => rw [hp] at h; cases h
      | ok q =>
          obtain ⟨w1, stm, ex1, a1⟩ := q
          rw [hp] at h
          dsimp only at h
          cases hr : enterTreeList cenv rest stm with
          | error e => rw [hr] at h; cases h
          | ok q2 =>
              obtain ⟨wrest, st2', ex2, arest⟩ := q2
              rw [hr] at h
              simp only [Except.ok.injEq, Prod.mk.injEq] at h
              obtain ⟨rfl, rfl, rfl, rfl⟩ := h
              exact .cons (shapeTree cenv v st w1 stm ex1 a1 hp)
                (shapeList cenv rest stm wrest st2' ex2 arest hr)
termination_by sizeOf xs

theorem shapeSetElems (cenv : List (String × String)) (xs : List ArgTree) :
    ∀ st w st1 ex af, enterTreeSetElems cenv xs st = .ok (w, st1, ex, af) →
      ShapePresList xs w := by
  cases xs with
  | nil =>
      intro st w st1 ex af h
      simp only [enterTreeSetElems, Except.ok.injEq, Prod.mk.injEq] at h
      obtain ⟨rfl, rfl, rfl, rfl⟩ := h
      exact .nil
  | cons v rest =>
      intro st w st1 ex af h
      simp only [enterTreeSetElems] at h
      cases hp : enterTree cenv v st with
      | error e => rw [hp] at h; cases h
      | ok q =>
          obtain ⟨w1, stm, ex1, a1⟩ := q
          rw [hp] at h
          dsimp only at h
          cases hh : pyHashable w1 with
          | false => rw [hh] at h; simp at h
          | true =>
              rw [hh] at h
              simp only [if_true] at h
              cases hr : enterTreeSetElems cenv rest stm with
              | error e => rw [hr] at h; simp at h
              | ok q2 =>
                  obtain ⟨wrest, st2', ex2, arest⟩ := q2
                  rw [hr] at h
                  simp only [Except.ok.injEq, Prod.mk.injEq] at h
                  obtain ⟨rfl, rfl, rfl, rfl⟩ := h
                  exact .cons (shapeTree cenv v st w1 stm ex1 a1 hp)
                    (shapeSetElems cenv rest stm wrest st2' ex2 arest hr)
termination_by sizeOf xs

end

/-! ## Round-trip of the envelope encoding -/

theorem decodeOptStr_encodeOptStr (o : Option String) :
    decodeOptStr (some (encodeOptStr o)) = some o := by
  cases o <;> rfl

theorem decodeOptParam_encodeOptParam (o : Option Param)
    (h : (match o with | none => true | some p => p.serialisable) = true) :
    decodeOptParam (some (encodeOptParam o)) = some o := by
  cases o with
  | none => rfl
  | some p =>
      have hp := decodeParam_encodeParam p h
      have hobj : ∃ kvs, encodeParam p = .jobj kvs := by
        cases p <;> exact ⟨_, by rw [encodeParam]⟩
      obtain ⟨kvs, hkvs⟩ := hobj
      rw [hkvs] at hp
      simp only [encodeOptParam, hkvs]
      dsimp only [decodeOptParam]
      rw [hp]
      rfl

theorem decodeOptParamList_encodeOptParamList (o : Option (List Param))
    (h : (match o with
          | none => true
          | some ps => ps.all Param.serialisable) = true) :
    decodeOptParamList (some (encodeOptParamList o)) = some o := by
  cases o with
  | none => rfl
  | some ps =>
      simp only [encodeOptParamList, decodeOptParamList]
      rw [decodeParamList_map ps h]
      rfl

theorem decodeOptEnv_encodeOptEnv (o : Option (List (String × Param)))
    (h : (match o with
          | none => true
          | some kvs => Param.serialisableArgs kvs) = true) :
    decodeOptEnv (some (encodeOptEnv o)) = some o := by
  cases o with
  | none => rfl
  | some kvs =>
      simp only [encodeOptEnv, decodeOptEnv]
      rw [decodeParamArgs_encodeParamArgs kvs h]
      rfl

theorem decodeRunRequest_encodeRunRequest (r : RunRequest)
    (h : r.serialisable = true) :
    decodeRunRequest (encodeRunRequest r) = some r := by
  obtain ⟨command, args, cwd, env, tod, tou, stdout, stderr⟩ := r
  simp only [RunRequest.serialisable, Bool.and_eq_true] at h
  obtain ⟨⟨⟨⟨⟨⟨h1, h2⟩, h3⟩, h4⟩, h5⟩, h6⟩, h7⟩ := h
  simp [decodeRunRequest, encodeRunRequest, jLookup,
    decodeParam_encodeParam command h1, decodeParamList_map args h2,
    decodeOptStr_encodeOptStr, decodeOptEnv_encodeOptEnv env h3,
    decodeOptParamList_encodeOptParamList tod h4,
    decodeOptParamList_encodeOptParamList tou h5,
    decodeOptParam_encodeOptParam stdout h6,
    decodeOptParam_encodeOptParam stderr h7]

/-- The server diagnostic string is never empty (it always carries at
least the separator and the traceback). -/
theorem diagnostic_ne_empty (e : String) : diagnostic e ≠ "" := by
  unfold diagnostic
  intro h
  have hl := congrArg String.length h
  simp [String.length_append] at hl
  exact absurd hl.2 (by decide)

/-- A store with no entry of name `u` counts zero entries of that
name. -/
theorem Store.countName_eq_zero {st : Store} {u : String}
    (h : st.existsName u = false) : st.countName u = 0 := by
  rw [Store.existsName_eq_false] at h
  unfold Store.countName
  rw [List.filter_eq_nil_iff.mpr]
  · rfl
  · intro e he
    simpa using h e he

/-! ## Claims -/

/-- C2: For every `RunRequest` envelope whose parameters are drawn
from the serialisable variant subset (`Str`, `Env`, `RemoteEnv`,
`CmdName`, `CmdPath`, `Format`, `InCloudFile`, `OutCloudFile`),
decoding the JSON encoding of the envelope yields an envelope equal to
the original: `decode(encode(r)) = r`. -/
theorem c2_envelope_roundtrip (r : RunRequest) (h : r.serialisable = true) :
    decodeRunRequest (encodeRunRequest r) = some r :=
  decodeRunRequest_encodeRunRequest r h

/-- A concrete serialisable envelope for the round-trip law. -/
def c2Request : RunRequest :=
  { command := .cmdName "run"
    args := [.str "-c",
             .format "cat {i} > {o}"
               [("i", .inCloudFile "/a" "h1"), ("o", .outCloudFile "/b" "h2")]]
    cwd := some "/tmp"
    env := some [("K", .env "PATH"), ("R", .remoteEnv "HOME")]
    stdout := some (.outCloudFile "/out" "h2")
    stderr := none }

theorem c2_envelope_roundtrip_witness :
    decodeRunRequest (encodeRunRequest c2Request) = some c2Request :=
  c2_envelope_roundtrip c2Request
    (by simp [c2Request, RunRequest.serialisable, Param.serialisable,
      Param.serialisableArgs])

/-- C3: For every input handed to the server-side pipeline (malformed
JSON and unknown variants are decode failures, materialisation and
execution failures are inner-function failures), the pipeline returns
a serialised `RunResponse` and never raises: on any exception the
response carries `return_code = -1` and a non-null, non-empty
diagnostic; on successful execution it carries the process exit code
and a null diagnostic. -/
theorem c3_server_boundary (decoded : Except String RunRequest)
    (func : RunRequest → Except String Int) :
    serverHandle decoded func =
      encodeRunResponse (deserializeAndUnpack decoded func) ∧
    (∀ e, decoded = .error e →
      deserializeAndUnpack decoded func = ⟨-1, some (diagnostic e)⟩) ∧
    (∀ rq rc, decoded = .ok rq → func rq = .ok rc →
      deserializeAndUnpack decoded func = ⟨rc, none⟩) ∧
    (∀ rq e, decoded = .ok rq → func rq = .error e →
      deserializeAndUnpack decoded func = ⟨-1, some (diagnostic e)⟩) ∧
    (∀ e, (deserializeAndUnpack decoded func).exc = some e → e ≠ "") := by
  refine ⟨rfl, ?_, ?_, ?_, ?_⟩
  · intro e he
    subst he
    rfl
  · intro rq rc hd hf
    subst hd
    simp [deserializeAndUnpack, hf]
  · intro rq e hd hf
    subst hd
    simp [deserializeAndUnpack, hf]
  · intro e he
    unfold deserializeAndUnpack at he
    cases decoded with
    | error e' =>
        dsimp only at he
        simp only [Option.some.injEq] at he
        subst he
        exact diagnostic_ne_empty e'
    | ok rq =>
        dsimp only at he
        cases hf : func rq with
        | ok rc => rw [hf] at he; dsimp only at he; cases he
        | error e' =>
            rw [hf] at he
            dsimp only at he
            simp only [Option.some.injEq] at he
            subst he
            exact diagnostic_ne_empty e'

theorem c3_server_boundary_witness :
    deserializeAndUnpack
        (.ok ⟨.str "echo", [], none, none, none, none, none, none⟩)
        (fun _ => .ok 7) = ⟨7, none⟩ ∧
    deserializeAndUnpack (.error "Expecting value: line 1 column 1")
        (fun _ => .ok 7) =
      ⟨-1, some (diagnostic "Expecting value: line 1 column 1")⟩ := by
  constructor
  · exact (c3_server_boundary
      (.ok ⟨.str "echo", [], none, none, none, none, none, none⟩)
      (fun _ => .ok 7)).2.2.1 _ 7 rfl rfl
  · exact (c3_server_boundary (.error "Expecting value: line 1 column 1")
      (fun _ => .ok 7)).2.1 _ rfl

/-- C4: For every `RunResponse` the client decodes: a non-null `exc`
field always raises `ServerEnd` and never produces a normal return; a
null `exc` field returns the response's `return_code` unchanged,
whatever its value — non-zero exit codes are not errors. -/
theorem c4_client_response_decode (resp : RunResponse) :
    (∀ e, resp.exc = some e →
      packResponsePostprocess resp = .error (.serverEnd e)) ∧
    (resp.exc = none →
      packResponsePostprocess resp = .ok resp.return_code) := by
  constructor
  · intro e he
    simp [packResponsePostprocess, he]
  · intro he
    simp [packResponsePostprocess, he]

theorem c4_client_response_decode_witness :
    packResponsePostprocess ⟨-1, some "boom"⟩ =
      .error (.serverEnd "boom") ∧
    packResponsePostprocess ⟨5, none⟩ = .ok 5 :=
  ⟨(c4_client_response_decode ⟨-1, some "boom"⟩).1 "boom" rfl,
   (c4_client_response_decode ⟨5, none⟩).2 rfl⟩

/-- C9 (counterexample): the serialised run-response object does not
carry a field named `error`; the diagnostic field of `RunResponse` is
named `exc` in `protocol.py` and is serialised under that key. -/
theorem c9_counterexample :
    jKeys (encodeRunResponse ⟨0, none⟩) = ["return_code", "exc"] ∧
    "error" ∉ jKeys (encodeRunResponse ⟨0, none⟩) := by
  constructor
  · rfl
  · decide

/-- C9 (amended): the serialised run-response object has exactly the
shape `{ "return_code": <int>, "exc": <string or null> }`, where `exc`
is a non-empty diagnostic string iff the worker failed before or
during execution. -/
theorem c9_response_shape (decoded : Except String RunRequest)
    (func : RunRequest → Except String Int) :
    serverHandle decoded func =
      .jobj [("return_code",
              .jint (deserializeAndUnpack decoded func).return_code),
             ("exc",
              encodeOptStr (deserializeAndUnpack decoded func).exc)] ∧
    ((∃ s, (deserializeAndUnpack decoded func).exc = some s ∧ s ≠ "") ↔
      ¬ serverRunOk decoded func) := by
  refine ⟨rfl, ?_⟩
  cases decoded with
  | error e =>
      simp only [deserializeAndUnpack, serverRunOk]
      constructor
      · rintro - ⟨rq, rc, h1, -⟩
        cases h1
      · intro _
        exact ⟨diagnostic e, rfl, diagnostic_ne_empty e⟩
  | ok rq =>
      cases hf : func rq with
      | ok rc =>
          simp only [deserializeAndUnpack, hf, serverRunOk]
          constructor
          · rintro ⟨s, hs, -⟩
            cases hs
          · intro hno
            exact absurd ⟨rq, rc, rfl, hf⟩ hno
      | error e =>
          simp only [deserializeAndUnpack, hf, serverRunOk]
          constructor
          · rintro - ⟨rq', rc', h1, h2⟩
            cases h1
            rw [hf] at h2
            cases h2
          · intro _
            exact ⟨diagnostic e, rfl, diagnostic_ne_empty e⟩

/-- C7 (counterexample): an explicitly supplied empty-string queue
does not take precedence for `CmdName`: `queue or command.name`
treats it as absent and dispatches to the command's own queue. -/
theorem c7_counterexample :
    clientChooseQueue (.param (.cmdName "build")) (some "") = .ok "build" ∧
    ("" : String) ≠ "build" := by
  constructor
  · rfl
  · decide

/-- C7 (amended): `CmdName(n)` is dispatched to queue `n` unless the
caller supplies a non-empty explicit queue, which takes precedence (an
empty string is treated as absent by Python truthiness); `CmdPath`
with no explicit queue fails before dispatch; a command that is not a
command parameter variant fails before dispatch. -/
theorem c7_queue_routing (n pth q : String) (t : ArgTree) :
    (clientChooseQueue (.param (.cmdName n)) none = .ok n) ∧
    (q ≠ "" → clientChooseQueue (.param (.cmdName n)) (some q) = .ok q) ∧
    (clientChooseQueue (.param (.cmdName n)) (some "") = .ok n) ∧
    (clientChooseQueue (.param (.cmdPath pth)) none =
      .error (.assertionError
        "Queue should be specified when command is CmdPathParam")) ∧
    (∀ q', clientChooseQueue (.param (.cmdPath pth)) (some q') = .ok q') ∧
    (isCmdT t = false → ∀ qopt,
      clientChooseQueue t qopt =
        .error (.assertionError
          "Expect command in type of CmdNameParam or CmdPathParam")) := by
  refine ⟨rfl, ?_, rfl, rfl, fun q' => rfl, ?_⟩
  · intro hq
    have : q.isEmpty = false := by
      rw [← Bool.not_eq_true, String.isEmpty_iff]
      exact hq
    simp [clientChooseQueue, this]
  · intro ht qopt
    cases t with
    | param p => cases p <;> simp_all [isCmdT, clientChooseQueue]
    | pyNone => rfl
    | scalar v => rfl
    | inStream fn => rfl
    | outStream fn => rfl
    | dict kvs => rfl
    | tlist xs => rfl
    | tup xs => rfl
    | tset xs => rfl

theorem c7_queue_routing_witness :
    clientChooseQueue (.param (.cmdName "build")) (some "q0") = .ok "q0" ∧
    clientChooseQueue (.scalar (.s "ls")) none =
      .error (.assertionError
        "Expect command in type of CmdNameParam or CmdPathParam") :=
  ⟨(c7_queue_routing "build" "/bin/sh" "q0" (.scalar (.s "ls"))).2.1
      (by decide),
   (c7_queue_routing "build" "/bin/sh" "q0" (.scalar (.s "ls"))).2.2.2.2.2
      rfl none⟩

/-- C8 (counterexample): deletion by canonical blob name does not
remove every entry bearing that name: with two entries named
`@h:/p`, `remove_from_cloud` deletes only the one located by
`find_one`, and an entry with that name remains. -/
theorem c8_counterexample :
    (Param.outCloudFile "/p" "h").cloudUrlD = "@h:/p" ∧
    ((Store.mk 2 [(0, "@h:/p"), (1, "@h:/p")]).removeFromCloud
        "@h:/p").2.existsName "@h:/p" = true := by
  constructor
  · rfl
  · rfl

/-- C8 (amended): deletion by canonical blob name removes exactly the
single entry located by `find_one` (further entries bearing the same
name remain), and is idempotent: when no entry with that name exists
the operation succeeds silently, leaving the store unchanged. -/
theorem c8_remove_by_name (st : Store) (u : String) :
    (st.existsName u = false → st.removeFromCloud u = (none, st)) ∧
    (Store.WF st → ∀ fid, st.findOne u = some fid →
      (st.removeFromCloud u).1 = some fid ∧
      (st.removeFromCloud u).2.countName u + 1 = st.countName u) := by
  constructor
  · intro h
    rw [Store.existsName_eq_false] at h
    unfold Store.removeFromCloud
    rw [Store.findOne_eq_none h]
  · intro hwf fid hfind
    unfold Store.removeFromCloud
    rw [hfind]
    refine ⟨rfl, ?_⟩
    unfold Store.findOne at hfind
    cases hf : st.entries.find? (fun e => e.2 == u) with
    | none => rw [hf] at hfind; cases hfind
    | some ent =>
        obtain ⟨fid', u'⟩ := ent
        rw [hf] at hfind
        simp only [Option.map_some', Option.some.injEq] at hfind
        obtain ⟨hpe, pre, post, hdec, hpre⟩ := List.find?_eq_some.mp hf
        have hu : u' = u := by simpa using hpe
        rw [hu] at hdec
        rw [hfind] at hdec
        have hdel := Store.deleteId_shaped hdec hwf.1
        unfold Store.countName
        rw [hdel, hdec]
        simp only [List.filter_append, List.filter_cons, List.length_append]
        have hb : (((fid, u) : Nat × String).2 == u) = true := by simp
        rw [hb]
        simp
        omega

theorem c8_remove_by_name_witness :
    ((Store.mk 1 []).removeFromCloud "@h:/p" = (none, Store.mk 1 [])) ∧
    ((Store.mk 2 [(0, "@h:/p"), (1, "@h:/p")]).removeFromCloud
        "@h:/p").1 = some 0 ∧
    ((Store.mk 2 [(0, "@h:/p"), (1, "@h:/p")]).removeFromCloud
        "@h:/p").2.countName "@h:/p" + 1 =
      (Store.mk 2 [(0, "@h:/p"), (1, "@h:/p")]).countName "@h:/p" := by
  refine ⟨(c8_remove_by_name (Store.mk 1 []) "@h:/p").1 rfl, ?_, ?_⟩
  · exact ((c8_remove_by_name (Store.mk 2 [(0, "@h:/p"), (1, "@h:/p")])
      "@h:/p").2 (by constructor <;> decide) 0 rfl).1
  · exact ((c8_remove_by_name (Store.mk 2 [(0, "@h:/p"), (1, "@h:/p")])
      "@h:/p").2 (by constructor <;> decide) 0 rfl).2

/-- C5 (counterexample): the client does not ensure an output slot is
free at submission: with a blob already occupying the canonical name
of `OutLocalFile("/o")`, the out-file guard enters without any check,
error, or store action — no `BlobConflict` is raised. -/
theorem c5_counterexample :
    (Store.mk 1 [(0, cloudUrl LOCAL_HOSTNAME "/o")]).existsName
      ((Param.outLocalFile "/o").cloudUrlD) = true ∧
    enterTree [] (.param (.outLocalFile "/o"))
        (Store.mk 1 [(0, cloudUrl LOCAL_HOSTNAME "/o")]) =
      .ok (.param (.outCloudFile "/o" LOCAL_HOSTNAME),
           Store.mk 1 [(0, cloudUrl LOCAL_HOSTNAME "/o")],
           [.outLocalExit (cloudUrl LOCAL_HOSTNAME "/o")],
           .param (.outLocalFile "/o")) := by
  constructor
  · rfl
  · simp [enterTree, enterParam]

/-- C5 (amended): the client performs no reservation or freedom check
for output slots — the out-file guard merely rewrites the parameter to
its cloud form and defers a download-and-delete exit action; after a
successful server execution in which the worker produced the slot's
file, the worker's upload adds exactly as many blobs with that
canonical name as the envelope has matching produced slots — exactly
one new blob when the slot was free and named once. -/
theorem c5_out_slot_lifecycle (cenv : List (String × String))
    (pth : String) (st : Store) (produced : String → Bool) (w : ArgTree)
    (u : String) :
    (enterTree cenv (.param (.outLocalFile pth)) st =
      .ok (.param (.outCloudFile pth LOCAL_HOSTNAME), st,
           [.outLocalExit (cloudUrl LOCAL_HOSTNAME pth)],
           .param (.outLocalFile pth))) ∧
    ((serverStoreEffect produced w st).countName u =
      st.countName u +
        (((outSlotUrlsT w).reverse.filter produced).count u)) ∧
    (st.existsName u = false →
      ((outSlotUrlsT w).reverse.filter produced).count u = 1 →
      (serverStoreEffect produced w st).countName u = 1) := by
  have hcount : (serverStoreEffect produced w st).countName u =
      st.countName u +
        (((outSlotUrlsT w).reverse.filter produced).count u) := by
    unfold serverStoreEffect
    exact Store.countName_putAll _ st u
  refine ⟨by simp [enterTree, enterParam], hcount, ?_⟩
  intro hfree hone
  rw [hcount, hone, Store.countName_eq_zero hfree]

theorem c5_out_slot_lifecycle_witness :
    (serverStoreEffect (fun _ => true)
        (.param (.outCloudFile "/o" LOCAL_HOSTNAME))
        (Store.mk 0 [])).countName (cloudUrl LOCAL_HOSTNAME "/o") = 1 :=
  (c5_out_slot_lifecycle [] "/o" (Store.mk 0 []) (fun _ => true)
      (.param (.outCloudFile "/o" LOCAL_HOSTNAME))
      (cloudUrl LOCAL_HOSTNAME "/o")).2.2 rfl
    (by simp [outSlotUrlsT, outSlotUrlsP])

/-- C6 (counterexample): the walk does not preserve set containers:
rebuilding the set `{"a"}` inserts the wrapped `StrParam("a")`, whose
dataclass (`eq=True, frozen=False`) has `__hash__ = None`, so the set
constructor raises `TypeError` — while the very same element inside a
sequence is wrapped and the container preserved. -/
theorem c6_counterexample :
    enterTree [] (.tset [.scalar (.s "a")]) (Store.mk 0 []) =
      .error (.typeError "unhashable type") ∧
    enterTree [] (.tlist [.scalar (.s "a")]) (Store.mk 0 []) =
      .ok (.tlist [.param (.str "a")], Store.mk 0 [], [],
           .tlist [.scalar (.s "a")]) := by
  constructor
  · simp [enterTree, enterTreeSetElems, pyHashable]
  · simp [enterTree, enterTreeList, PyScalar.pyStr]

/-- C6 (amended): whenever the walk succeeds it preserves container
kind (mapping, sequence, set) and mapping keys, wraps every
non-parameter scalar leaf (string, integer, float, boolean) as `Str`
of its stringification, and passes `None` through unchanged; but for a
set container the walk succeeds only when every walked element is
hashable — every wrapped parameter is not, the `Param` dataclasses
having `__hash__ = None` — so a set whose first element wraps to a
parameter (e.g. any scalar) makes the walk raise `TypeError` instead
of preserving the set. -/
theorem c6_walk_shape (cenv : List (String × String)) (t : ArgTree)
    (st : Store) :
    (∀ w st1 ex af, enterTree cenv t st = .ok (w, st1, ex, af) →
      ShapePres t w) ∧
    (∀ v rest, enterTree cenv (.tset (.scalar v :: rest)) st =
      .error (.typeError "unhashable type")) := by
  constructor
  · intro w st1 ex af h
    exact shapeTree cenv t st w st1 ex af h
  · intro v rest
    simp [enterTree, enterTreeSetElems, pyHashable]

/-- A concrete caller tree exercising every container kind; its set
holds only `None`, the one kind of walked element that stays
hashable. -/
def c6Tree : ArgTree :=
  .dict [("a", .scalar (.s "x")), ("b", .tset [.pyNone]),
         ("c", .pyNone), ("d", .tup [.tlist [.scalar (.b false)]])]

/-- The wrapped tree the walk yields for `c6Tree`. -/
def c6Wrapped : ArgTree :=
  .dict [("a", .param (.str "x")), ("b", .tset [.pyNone]),
         ("c", .pyNone), ("d", .tup [.tlist [.param (.str "False")]])]

theorem c6_walk_shape_witness :
    ShapePres c6Tree c6Wrapped ∧
    enterTree [] (.tset [.scalar (.s "a")]) (Store.mk 0 []) =
      .error (.typeError "unhashable type") := by
  constructor
  · exact (c6_walk_shape [] c6Tree (Store.mk 0 [])).1 c6Wrapped
      (Store.mk 0 []) [] c6Tree
      (by simp [c6Tree, c6Wrapped, enterTree, enterTreeKVs, enterTreeList,
        enterTreeSetElems, pyHashable, PyScalar.pyStr])
  · exact (c6_walk_shape [] c6Tree (Store.mk 0 [])).2 (.s "a") []

/-- C10: guarding rewrites the caller's own `FormatParam` object in
place: its `args` mapping is replaced by the guarded (transformed)
parameters — the very object serialised into the envelope — and is not
restored when the `ExitStack` unwinds, so after `run` returns the
caller's `FormatParam` holds the guarded children rather than the
original ones. -/
theorem c10_format_frame (cenv : List (String × String))
    (dispatch : ArgTree → Store → (Except String RunResponse) × Store)
    (tmpl : String) (args : List (String × Param)) (st : Store)
    (out : RunOutcome)
    (h : clientRunWith cenv dispatch (.param (.format tmpl args)) st =
      .ok out) :
    out.callerAfter = out.sent ∧
    ∃ wargs st' ex arest,
      enterParamArgs cenv args st = .ok (wargs, st', ex, arest) ∧
      out.sent = .param (.format tmpl wargs) := by
  unfold clientRunWith at h
  simp only [enterTree] at h
  cases hp : enterParam cenv (.format tmpl args) st with
  | error e => rw [hp] at h; cases h
  | ok q =>
      obtain ⟨w1, st1, ex1, a1⟩ := q
      rw [hp] at h
      dsimp only at h
      simp only [enterParam] at hp
      cases ha : enterParamArgs cenv args st with
      | error e => rw [ha] at hp; cases hp
      | ok q2 =>
          obtain ⟨wargs, st', ex0, arest⟩ := q2
          rw [ha] at hp
          simp only [Except.ok.injEq, Prod.mk.injEq] at hp
          obtain ⟨rfl, rfl, rfl, rfl⟩ := hp
          rcases hd : dispatch (.param (.format tmpl wargs)) st' with
            ⟨dres, st2⟩
          rw [hd] at h
          dsimp only at h
          cases hrx : runExits ex0.reverse st2 with
          | error e2 => rw [hrx] at h; cases h
          | ok st3 =>
              rw [hrx] at h
              cases dres with
              | error e => dsimp only at h; cases h
              | ok resp =>
                  dsimp only at h
                  cases hexc : resp.exc with
                  | some e =>
                      simp only [packResponsePostprocess, hexc] at h
                      cases h
                  | none =>
                      simp only [packResponsePostprocess, hexc] at h
                      simp only [Except.ok.injEq] at h
                      subst h
                      exact ⟨rfl, wargs, st', ex0, arest, rfl, rfl⟩

/-- The caller's format parameter after a run with transformed
children. -/
def c10Out : RunOutcome :=
  ⟨0, Store.mk 0 [], .param (.format "{x}" [("x", .env "HOME")]),
   .param (.format "{x}" [("x", .env "HOME")])⟩

theorem c10_format_frame_witness :
    c10Out.callerAfter = c10Out.sent ∧
    c10Out.callerAfter ≠ .param (.format "{x}" [("x", .remoteEnv "HOME")]) := by
  constructor
  · exact (c10_format_frame [] (fun w st => (.ok ⟨0, none⟩, st)) "{x}"
      [("x", .remoteEnv "HOME")] (Store.mk 0 []) c10Out
      (by simp [clientRunWith, enterTree, enterParam, enterParamArgs,
        runExits, packResponsePostprocess, c10Out])).1
  · simp [c10Out]

/-- C1 (counterexample): a successful `run` whose tree carries a
foreign `OutCloudFile` slot ends with a blob-name set different from
the one before the call: the worker's upload to `@node42:/srv/r.bin`
persists (the client has no guard deleting it), as scenario E2
prescribes. -/
theorem c1_counterexample :
    (Store.mk 0 []).entries.map Prod.snd = [] ∧
    (clientRunWith [] (serverDispatch (fun _ => true))
        (.param (.outCloudFile "/srv/r.bin" "node42")) (Store.mk 0 [])).map
      (fun o => o.store.entries.map Prod.snd) = .ok ["@node42:/srv/r.bin"] ∧
    (["@node42:/srv/r.bin"] : List String) ≠ [] := by
  refine ⟨rfl, ?_, by decide⟩
  simp [clientRunWith, enterTree, enterParam, serverDispatch,
    serverStoreEffect, outSlotUrlsT, outSlotUrlsP, Store.putAll, Store.put,
    runExits, packResponsePostprocess, cloudUrl, Except.map]

/-- C1 (amended): for every client `run` call that completes
successfully, in which every output slot is client-originated (no
foreign `OutCloudFile`), the staged and slot names are pairwise
distinct, and none of them is occupied in the store at entry, the set
(indeed the list) of blob entries after the call equals the one before
it: every blob the client pipeline created — uploaded local and stream
inputs — and every slot blob the worker produced is deleted by its
guard's exit action before `run` returns. -/
theorem c1_store_cleanup (cenv : List (String × String))
    (produced : String → Bool) (tree : ArgTree) (st : Store)
    (out : RunOutcome)
    (hwf : Store.WF st)
    (hforeign : noForeignOutT tree = true)
    (hnd : (inUrlsT tree ++ outUrlsT tree).Nodup)
    (hfree : ∀ u ∈ inUrlsT tree ++ outUrlsT tree, st.existsName u = false)
    (hrun : clientRunWith cenv (serverDispatch produced) tree st = .ok out) :
    out.store.entries = st.entries ∧
    out.store.entries.map Prod.snd = st.entries.map Prod.snd := by
  have h := clientRun_store_preserved cenv produced tree st out hwf
    hforeign hnd hfree hrun
  exact ⟨h, by rw [h]⟩

/-- A run staging one local input and one local output slot. -/
def c1Tree : ArgTree :=
  .tlist [.param (.inLocalFile "/i"), .param (.outLocalFile "/o")]

/-- The envelope tree sent for `c1Tree`. -/
def c1Sent : ArgTree :=
  .tlist [.param (.inCloudFile "/i" LOCAL_HOSTNAME),
          .param (.outCloudFile "/o" LOCAL_HOSTNAME)]

/-- The outcome of the witness run: exit code 0, the store back to
empty. -/
def c1Out : RunOutcome := ⟨0, Store.mk 2 [], c1Sent, c1Tree⟩

theorem c1_store_cleanup_witness :
    c1Out.store.entries = (Store.mk 0 []).entries :=
  (c1_store_cleanup [] (fun _ => true) c1Tree (Store.mk 0 []) c1Out
    (by constructor <;> simp [Store.WF])
    (by simp [c1Tree, noForeignOutT, noForeignE, urlEventsT, urlEventsList,
      urlEventsP])
    (by simp [c1Tree, inUrlsT, outUrlsT, inUrlsE, outUrlsE, urlEventsT,
      urlEventsList, urlEventsP, UrlKind.isIn, UrlKind.isOut, cloudUrl,
      LOCAL_HOSTNAME])
    (fun u _ => rfl)
    (by simp [c1Tree, c1Sent, c1Out, clientRunWith, enterTree,
      enterTreeList, enterParam, serverDispatch, serverStoreEffect,
      outSlotUrlsT, outSlotUrlsList, outSlotUrlsP, Store.putAll, Store.put,
      runExits, runExit, Store.findOne, Store.deleteId,
      packResponsePostprocess, cloudUrl, LOCAL_HOSTNAME, List.find?,
      List.filter])).1

end Cmdproxy
